import Mathlib

/-!
Verification of the second-brain repository's specification against a shallow
embedding of its Python source.

Each section embeds one component of the source (file and function names kept
where Lean allows) and proves or refutes the frozen claims about it.
-/

namespace SecondBrain

/-!
Section: Conversation state (src/conversation_state.py)

A stored message has a role and a content that is either a plain string or a
list of typed blocks, mirroring the Claude-API message dictionaries the file
stores as JSON.  `tool_use` blocks carry a call id and tool name, `tool_result`
blocks carry the id of the call they answer.
-/

inductive Block where
  | text (s : String)
  | tool_use (id : String) (name : String)
  | tool_result (tool_use_id : String)
deriving DecidableEq, Repr

inductive Content where
  | str (s : String)
  | blocks (bs : List Block)
deriving DecidableEq, Repr

structure Message where
  role : String
  content : Content
deriving DecidableEq, Repr

def Block.isToolResult : Block → Bool
  | .tool_result _ => true
  | _ => false

def Block.isToolUse : Block → Bool
  | .tool_use _ _ => true
  | _ => false

/-- Source `isinstance(content, list) and any(c.get("type") == "tool_result" for c in content)`. -/
def Content.hasToolResult : Content → Bool
  | .str _ => false
  | .blocks bs => bs.any Block.isToolResult

/-- Source `isinstance(content, list) and any(c.get("type") == "tool_use" for c in content)`. -/
def Content.hasToolUse : Content → Bool
  | .str _ => false
  | .blocks bs => bs.any Block.isToolUse

/-- The `is_tool_result` test of `get_conversation_history` (lines 59-66). -/
def isOrphanToolResultMsg (m : Message) : Bool :=
  m.role == "user" && m.content.hasToolResult

/-- The `is_tool_use` test of `get_conversation_history` (lines 69-76). -/
def isLeadingToolUseMsg (m : Message) : Bool :=
  m.role == "assistant" && m.content.hasToolUse

/-- Python `history[-limit:]` for a positive `limit`: the last `limit` elements. -/
def takeLast (n : Nat) (l : List Message) : List Message := l.drop (l.length - n)

/--
`get_conversation_history` (src/conversation_state.py lines 34-82) for one
stored conversation: take the last `limit` messages (all of them when `limit`
is 0, since Python treats `limit = 0` as falsy), then repeatedly drop the first
message while it is a user turn holding a `tool_result` block or an assistant
turn holding a `tool_use` block.  No trimming is applied at the tail.
-/
def get_conversation_history (messages : List Message) (limit : Nat) : List Message :=
  let recent := if limit ≠ 0 then takeLast limit messages else messages
  recent.dropWhile (fun m => isOrphanToolResultMsg m || isLeadingToolUseMsg m)

/-- A window ends with an unresolved tool-call request when its final turn is
an assistant turn containing a `tool_use` block (nothing can follow it). -/
def endsWithUnresolvedToolUse (l : List Message) : Bool :=
  (l.getLast?.map isLeadingToolUseMsg).getD false

/-- Two-turn history whose stored tail is an assistant tool-call-request turn. -/
def exHistoryC1 : List Message :=
  [⟨"user", .str "hola"⟩,
   ⟨"assistant", .blocks [.tool_use "toolu_01" "list_entries"]⟩]

/-!
Section: Calendar arithmetic (the `datetime` operations used by src/reminder_storage.py)

Python's naive `datetime` values are modelled as a calendar date plus a
seconds-within-day component.  `timedelta(days=k)` addition is iterated
next-calendar-day; `replace(...)` raising `ValueError` on an invalid day is
modelled by the explicit day-bound test at each use site.
-/

def isLeapYear (y : Nat) : Bool :=
  (y % 4 == 0 && y % 100 != 0) || y % 400 == 0

def daysInMonth (y m : Nat) : Nat :=
  if m == 2 then (if isLeapYear y then 29 else 28)
  else if m == 4 || m == 6 || m == 9 || m == 11 then 30
  else 31

structure Date where
  year : Nat
  month : Nat
  day : Nat
deriving DecidableEq, Repr

def Date.valid (d : Date) : Prop :=
  1 ≤ d.month ∧ d.month ≤ 12 ∧ 1 ≤ d.day ∧ d.day ≤ daysInMonth d.year d.month

instance (d : Date) : Decidable d.valid := by
  unfold Date.valid
  infer_instance

def nextDay (d : Date) : Date :=
  if d.day < daysInMonth d.year d.month then ⟨d.year, d.month, d.day + 1⟩
  else if d.month < 12 then ⟨d.year, d.month + 1, 1⟩
  else ⟨d.year + 1, 1, 1⟩

/-- Source `date + timedelta(days=n)`. -/
def addDays (d : Date) : Nat → Date
  | 0 => d
  | n + 1 => nextDay (addDays d n)

/-- Source `date - timedelta(days=1)`. -/
def prevDay (d : Date) : Date :=
  if 1 < d.day then ⟨d.year, d.month, d.day - 1⟩
  else if 1 < d.month then ⟨d.year, d.month - 1, daysInMonth d.year (d.month - 1)⟩
  else ⟨d.year - 1, 12, 31⟩

structure DateTime where
  date : Date
  sec : Nat
deriving DecidableEq, Repr

/-- Chronological comparison of naive datetimes (equivalently, lexicographic
comparison of their ISO strings, which is how stored trigger times compare). -/
def DateTime.le (a b : DateTime) : Bool :=
  if a.date.year ≠ b.date.year then decide (a.date.year < b.date.year)
  else if a.date.month ≠ b.date.month then decide (a.date.month < b.date.month)
  else if a.date.day ≠ b.date.day then decide (a.date.day < b.date.day)
  else decide (a.sec ≤ b.sec)

/-!
Section: Reminder store (src/reminder_storage.py)

Reminder records as stored in reminders.json.  `uuid.uuid4()` ids are modelled
as Nats issued by a freshness counter carried in the store; the wall-clock
bookkeeping fields (`created_at`, `updated_at`, `completed_at`) are not
modelled, no claim mentions them.  Stored ISO trigger-time strings are
modelled directly as `DateTime` values (records whose `trigger_time` fails to
parse are skipped by the source and lie outside the model).
-/

inductive RepeatKind where
  | none | daily | weekly | monthly
deriving DecidableEq, Repr

inductive ReminderStatus where
  | pending | triggered | completed
deriving DecidableEq, Repr

structure Reminder where
  id : Nat
  content : String
  trigger_time : DateTime
  repeat_ : RepeatKind
  status : ReminderStatus
  reference_entry_id : Option String
  journal_date : Option Date
deriving DecidableEq, Repr

structure ReminderStore where
  reminders : List Reminder
  nextId : Nat
deriving DecidableEq, Repr

/-- Distinct ids, and every stored id below the freshness counter. -/
def ReminderStore.wf (s : ReminderStore) : Prop :=
  (s.reminders.map Reminder.id).Nodup ∧ ∀ r ∈ s.reminders, r.id < s.nextId

instance : DecidablePred ReminderStore.wf := by
  intro s
  unfold ReminderStore.wf
  infer_instance

/-- Source `create_reminder` (lines 38-83): append a fresh `pending` record.  The
claims under verification always pass an explicit trigger time, so the
"tomorrow at DEFAULT_REMINDER_HOUR" default of the omitted argument is not
modelled. -/
def create_reminder (content : String) (trigger_time : DateTime) (rep : RepeatKind)
    (reference_entry_id : Option String) (journal_date : Option Date)
    (s : ReminderStore) : Reminder × ReminderStore :=
  let r : Reminder :=
    ⟨s.nextId, content, trigger_time, rep, .pending, reference_entry_id, journal_date⟩
  (r, ⟨s.reminders ++ [r], s.nextId + 1⟩)

/-- Source `update_reminder_status` (lines 118-143): set the status of the first
record with the given id. -/
def update_reminder_status (reminder_id : Nat) (new_status : ReminderStatus) :
    List Reminder → List Reminder
  | [] => []
  | r :: rest =>
      if r.id = reminder_id then { r with status := new_status } :: rest
      else r :: update_reminder_status reminder_id new_status rest

/-- Source `get_triggered_reminders` (lines 160-188): all `pending` reminders whose
trigger time is at or before `now` (the source reads `now` from the wall
clock; it is passed explicitly here). -/
def get_triggered_reminders (now : DateTime) (s : ReminderStore) : List Reminder :=
  s.reminders.filter fun r => r.status == .pending && DateTime.le r.trigger_time now

/-- The `next_month`/`next_year` computation of lines 221-225. -/
def monthRollover (y m : Nat) : Nat × Nat :=
  if m + 1 > 12 then (y + 1, 1) else (y, m + 1)

/-- The monthly branch of lines 219-234: `replace(year, month)` when the day
fits the target month, otherwise the first-of-month + 32 days − 1 day
fallback. -/
def monthlyNextDate (d : Date) : Date :=
  let ym := monthRollover d.year d.month
  if d.day ≤ daysInMonth ym.1 ym.2 then
    ⟨ym.1, ym.2, d.day⟩
  else
    let d2 := addDays ⟨ym.1, ym.2, 1⟩ 32
    prevDay ⟨d2.year, d2.month, 1⟩

/-- The next-occurrence computation of lines 215-234 (`timedelta` additions
keep the time of day, as does `replace` on date fields).  `RepeatKind.none`
never reaches this computation (it is guarded at line 211). -/
def next_trigger (rep : RepeatKind) (t : DateTime) : DateTime :=
  match rep with
  | .daily => { t with date := addDays t.date 1 }
  | .weekly => { t with date := addDays t.date 7 }
  | .monthly => { t with date := monthlyNextDate t.date }
  | .none => t

/-- Modelled from the spec: the advance interval as the claim states it —
daily +1 day, weekly +7 days, monthly same day-of-month next month clamped to
the last day of that month on overflow.  Used only as the comparison point of
the refinement in C2. -/
def specNextTrigger (rep : RepeatKind) (t : DateTime) : DateTime :=
  match rep with
  | .daily => { t with date := addDays t.date 1 }
  | .weekly => { t with date := addDays t.date 7 }
  | .monthly =>
      let ym := monthRollover t.date.year t.date.month
      { t with date := ⟨ym.1, ym.2, min t.date.day (daysInMonth ym.1 ym.2)⟩ }
  | .none => t

/-- The body of the `for reminder in triggered` loop of
`process_triggered_reminders` (lines 203-245) for one reminder: first write
the `triggered` status, then, for a repeating reminder, create the next
occurrence with the advanced trigger time and `journal_date=None`. -/
def process_step (r : Reminder) (s : ReminderStore) : ReminderStore :=
  let s1 : ReminderStore := ⟨update_reminder_status r.id .triggered s.reminders, s.nextId⟩
  if r.repeat_ = .none then s1
  else (create_reminder r.content (next_trigger r.repeat_ r.trigger_time) r.repeat_
          r.reference_entry_id Option.none s1).2

def process_loop : List Reminder → ReminderStore → List Reminder × ReminderStore
  | [], s => ([], s)
  | r :: rest, s =>
      let p := process_loop rest (process_step r s)
      (r :: p.1, p.2)

/-- Source `process_triggered_reminders` (lines 191-247): snapshot the due reminders,
then run the per-reminder step over each, returning the due snapshot as the
notification list. -/
def process_triggered_reminders (now : DateTime) (s : ReminderStore) :
    List Reminder × ReminderStore :=
  process_loop (get_triggered_reminders now s) s

/-- Every record whose id is listed, with status overwritten to `triggered`. -/
def markTriggered (ids : List Nat) (l : List Reminder) : List Reminder :=
  l.map fun r => if r.id ∈ ids then { r with status := .triggered } else r

/-- The next-occurrence record `create_reminder` appends for `r` when the
freshness counter stands at `n` (lines 238-245): same content, repeat and
reference entry, advanced trigger time, `pending`, and no journal date. -/
def mkSpawn (r : Reminder) (n : Nat) : Reminder :=
  ⟨n, r.content, next_trigger r.repeat_ r.trigger_time, r.repeat_, .pending,
    r.reference_entry_id, Option.none⟩

/-- The next-occurrence records spawned for a due list, ids issued in order. -/
def spawnsOf : List Reminder → Nat → List Reminder
  | [], _ => []
  | r :: rest, n =>
      if r.repeat_ = .none then spawnsOf rest n
      else mkSpawn r n :: spawnsOf rest (n + 1)

def repeatCount : List Reminder → Nat
  | [] => 0
  | r :: rest => (if r.repeat_ = .none then 0 else 1) + repeatCount rest

/-- The new-pending-occurrence profile C2 asks about: a record whose id is
fresh (not among the previously stored ids), pending, with the content and
repeat of `r`, no journal date, and the trigger time advanced as the spec describes
it. -/
def newSpawnMatch (origIds : List Nat) (r : Reminder) (y : Reminder) : Bool :=
  decide (y.id ∉ origIds) && (y.status == ReminderStatus.pending)
  && decide (y.content = r.content) && decide (y.repeat_ = r.repeat_)
  && decide (y.journal_date = Option.none)
  && decide (y.trigger_time = specNextTrigger r.repeat_ r.trigger_time)

/-- A monthly reminder due on Jan 31 2025 (non-leap), exercising the
end-of-month clamp. -/
def remC2 : Reminder :=
  ⟨0, "pagar alquiler", ⟨⟨2025, 1, 31⟩, 32400⟩, RepeatKind.monthly,
    ReminderStatus.pending, Option.none, some ⟨2025, 1, 31⟩⟩

def storeC2 : ReminderStore := ⟨[remC2], 1⟩

def nowC2 : DateTime := ⟨⟨2025, 2, 1⟩, 0⟩

/-- A daily reminder due at 09:00 on Mar 10 2025, processed twice at 10:00. -/
def remC3 : Reminder :=
  ⟨0, "llamar al dentista", ⟨⟨2025, 3, 10⟩, 32400⟩, RepeatKind.daily,
    ReminderStatus.pending, Option.none, Option.none⟩

def storeC3 : ReminderStore := ⟨[remC3], 1⟩

def nowC3 : DateTime := ⟨⟨2025, 3, 10⟩, 36000⟩

/-!
Section: Entry store (src/storage.py) and the entry-creation tool (src/agent_tools.py)

`STORAGE_FILES` is a Python dict mapping the five category names to JSON
files; it is modelled as an association list in the dict's insertion order
(the order `get_entry_by_id` scans).  Entry dictionaries become the `Entry`
structure; `uuid.uuid4()` ids are Nats issued by a freshness counter and
`datetime.now().isoformat()` stamps are abstract Nat clock values passed in
explicitly.  The `journal_refs` field is the spec's Entry-side link list
(§3 Link), the store the missing `add_journal_ref_to_entry` writes to.
-/

structure Entry where
  id : Nat
  timestamp : Nat
  raw_message : String
  category : String
  confidence : ℚ
  processed_at : Nat
  chat_id : Option Int
  message_id : Option Int
  corrected_from : Option String
  journal_refs : List (Date × String)
deriving DecidableEq, Repr

/-- An audit event: action kind, item id, category. -/
structure AuditEvent where
  action : String
  item_id : Nat
  category : String
deriving DecidableEq, Repr

structure BrainStore where
  files : List (String × List Entry)
  audit : List AuditEvent
  nextId : Nat
deriving DecidableEq, Repr

/-- The keys of `STORAGE_FILES` (src/config.py lines 19-25), in dict order. -/
def STORAGE_CATEGORIES : List String :=
  ["people", "projects", "ideas", "admin", "inbox"]

/-- src/config.py line 44: the threshold 0.7, as the rational 7/10 (written
as an explicit numerator/denominator literal so that comparisons evaluate). -/
def CONFIDENCE_THRESHOLD : ℚ := ⟨7, 10, by decide, by decide⟩

/-- A sub-threshold confidence (0.5) used as a concrete witness input. -/
def confLow : ℚ := ⟨1, 2, by decide, by decide⟩

/-- An above-threshold confidence (0.9) used as a concrete witness input. -/
def confHigh : ℚ := ⟨9, 10, by decide, by decide⟩

def allEntries (files : List (String × List Entry)) : List Entry :=
  (files.map Prod.snd).flatten

/-- The five category files present with their fixed keys, all ids distinct
across the whole base, and every id below the freshness counter. -/
def BrainStore.wf (s : BrainStore) : Prop :=
  s.files.map Prod.fst = STORAGE_CATEGORIES
  ∧ ((allEntries s.files).map Entry.id).Nodup
  ∧ ∀ e ∈ allEntries s.files, e.id < s.nextId

instance : DecidablePred BrainStore.wf := by
  intro s
  unfold BrainStore.wf
  infer_instance

/-- Rewriting one category's JSON file: replace the value at the (first)
matching key. -/
def setFileList (c : String) (l : List Entry) :
    List (String × List Entry) → List (String × List Entry)
  | [] => []
  | (k, v) :: rest => if k = c then (k, l) :: rest else (k, v) :: setFileList c l rest

/-- Source `storage.create_entry` (src/storage.py lines 46-74): build the record,
raise `ValueError` for a category with no storage file, else append and
save. -/
def storage_create_entry (category : String) (raw_message : String)
    (confidence : ℚ) (chat_id message_id : Option Int) (now : Nat)
    (s : BrainStore) : Except String (Entry × BrainStore) :=
  let entry : Entry :=
    ⟨s.nextId, now, raw_message, category, confidence, now, chat_id, message_id,
      Option.none, []⟩
  match s.files.lookup category with
  | Option.none => Except.error ("Unknown category: " ++ category)
  | some entries =>
      Except.ok (entry,
        { s with
            files := setFileList category (entries ++ [entry]) s.files,
            nextId := s.nextId + 1 })

/-- Source `get_entry_by_id` (src/storage.py lines 77-84): scan every category
collection in dict order, returning the first entry with the id together
with its category. -/
def get_entry_by_id (entry_id : Nat) : List (String × List Entry) → Option (Entry × String)
  | [] => Option.none
  | (c, entries) :: rest =>
      match entries.find? (fun e => e.id == entry_id) with
      | some e => some (e, c)
      | Option.none => get_entry_by_id entry_id rest

/-- The `for i, e in enumerate(from_entries): ... from_entries.pop(i)` search
of `move_entry`: remove the first entry with the id, returning it and the
remaining list. -/
def extractFirst (entry_id : Nat) : List Entry → Option (Entry × List Entry)
  | [] => Option.none
  | e :: rest =>
      if e.id = entry_id then some (e, rest)
      else
        match extractFirst entry_id rest with
        | some (x, l) => some (x, e :: l)
        | Option.none => Option.none

/-- Source `move_entry` (src/storage.py lines 97-136).  Both category files are
loaded before either is saved — when `from_category = to_category` the two
loaded lists are independent copies of the same file, and the second save
overwrites the first, exactly as in the source. -/
def move_entry (entry_id : Nat) (from_category to_category : String)
    (additional_context : Option String) (now : Nat) (s : BrainStore) :
    Option Entry × BrainStore :=
  match s.files.lookup from_category, s.files.lookup to_category with
  | some from_entries, some to_entries =>
      match extractFirst entry_id from_entries with
      | Option.none => (Option.none, s)
      | some (entry, from_entries') =>
          let entry' : Entry :=
            { entry with
                corrected_from := some from_category,
                category := to_category,
                processed_at := now,
                raw_message :=
                  match additional_context with
                  | some ctx =>
                      if ctx.trim ≠ "" then
                        entry.raw_message ++ "\n[Clarification: " ++ ctx.trim ++ "]"
                      else entry.raw_message
                  | Option.none => entry.raw_message }
          let files1 := setFileList from_category from_entries' s.files
          let files2 := setFileList to_category (to_entries ++ [entry']) files1
          (some entry', { s with files := files2 })
  | _, _ => (Option.none, s)

inductive CreateResult where
  | ok (entry : Entry) (category : String)
  | err (msg : String)
deriving DecidableEq, Repr

/-- Source `agent_tools.create_entry` (src/agent_tools.py lines 667-701): confidence
below `CONFIDENCE_THRESHOLD` forces the category to `inbox` before the store
call; a raising store call is converted into an error result.  The
best-effort `enrich_context` call touches only context markdown files and is
swallowed by its own `try/except`, so it has no effect on the store. -/
def agent_create_entry (category : String) (message : String) (confidence : ℚ)
    (chat_id message_id : Option Int) (now : Nat) (s : BrainStore) :
    CreateResult × BrainStore :=
  let category := if confidence < CONFIDENCE_THRESHOLD then "inbox" else category
  match storage_create_entry category message confidence chat_id message_id now s with
  | Except.ok (entry, s1) =>
      (CreateResult.ok entry category,
       { s1 with audit := s1.audit ++ [⟨"classified", entry.id, category⟩] })
  | Except.error msg => (CreateResult.err msg, s)

/-- The empty, freshly initialised knowledge base. -/
def emptyBrain : BrainStore :=
  ⟨[("people", []), ("projects", []), ("ideas", []), ("admin", []), ("inbox", [])], [], 0⟩

/-- The record `move_entry` writes to the destination file: the original
entry with `corrected_from`, `category` and `processed_at` rewritten (no
clarification context supplied). -/
def movedCopy (e : Entry) (A B : String) (now : Nat) : Entry :=
  { e with corrected_from := some A, category := B, processed_at := now }

/-- The knowledge base used by the concrete C7 demonstrations: one entry in
the inbox. -/
def entC7 : Entry :=
  ⟨0, 0, "nota suelta", "inbox", confHigh, 0, Option.none, Option.none,
    Option.none, []⟩

def brainC7 : BrainStore :=
  ⟨[("people", []), ("projects", []), ("ideas", []), ("admin", []),
    ("inbox", [entC7])], [], 1⟩

/-!
Section: Journal store (src/journal_storage.py)

Day documents are markdown text files addressed by date; the store is
modelled as an association list from dates to file contents, a file content
being its character list.  The front-matter surgery of
`add_linked_entry_to_journal` (lines 277-325) is modelled at the character
level with the same primitives the Python uses: `startswith`, `find` from an
offset, slicing, `split`/`join` on newlines, and substring tests.
-/

/-- Python `str.find(pat, i)`, scanning the remaining characters; `None`
models the -1 "not found" result. -/
def findSubAux (pat : List Char) : List Char → Nat → Option Nat
  | [], i => if pat = [] then some i else Option.none
  | c :: rest, i =>
      if pat.isPrefixOf (c :: rest) then some i else findSubAux pat rest (i + 1)

def findSub (pat l : List Char) (start : Nat) : Option Nat :=
  findSubAux pat (l.drop start) start

/-- Python `pat in s`. -/
def containsSub (pat l : List Char) : Bool :=
  (findSub pat l 0).isSome

/-- Python `str.split("\n")`. -/
def splitNl (l : List Char) : List (List Char) :=
  l.splitOn '\n'

/-- Python `str.strip()`. -/
def listStrip (l : List Char) : List Char :=
  ((l.dropWhile Char.isWhitespace).reverse.dropWhile Char.isWhitespace).reverse

/-- The front-matter fence the journal files use. -/
def fmSep : List Char := ("---\n").data

/-- Rewriting one day's file in place. -/
def setJournalFile (d : Date) (content : List Char) :
    List (Date × List Char) → List (Date × List Char)
  | [] => []
  | (k, v) :: rest =>
      if k = d then (k, content) :: rest else (k, v) :: setJournalFile d content rest

/-- Source `add_linked_entry_to_journal` (src/journal_storage.py lines 277-325):
fail when the day document does not exist or has no parseable front matter;
otherwise, when a `linked_entries:` key is present, insert an item line
directly after every line containing the key, else append a fresh
`linked_entries:` section to the front matter; write back
`---\n{front_matter}---\n{body}`. -/
def add_linked_entry_to_journal (journal_date : Date) (entry_id : String)
    (js : List (Date × List Char)) : Bool × List (Date × List Char) :=
  match js.lookup journal_date with
  | Option.none => (false, js)
  | some content =>
      if fmSep.isPrefixOf content then
        match findSub fmSep content 4 with
        | Option.none => (false, js)
        | some endFM =>
            let front_matter := (content.drop 4).take (endFM - 4)
            let body := content.drop (endFM + 4)
            let lePat := ("linked_entries:").data
            let item := ("  - " ++ entry_id).data
            let front_matter2 :=
              if containsSub lePat front_matter then
                List.intercalate ['\n']
                  (((splitNl front_matter).map fun ln =>
                      if containsSub lePat ln then [ln, item] else [ln]).flatten)
              else
                front_matter ++ ("\nlinked_entries:\n  - " ++ entry_id ++ "\n").data
            (true, setJournalFile journal_date
              (fmSep ++ front_matter2 ++ fmSep ++ body) js)
      else (false, js)

/-- The `linked_entries` front-matter parser of `read_journal`
(src/journal_storage.py lines 106-122): walk the front-matter lines with an
`in_linked` flag, collecting stripped `- ` items. -/
def parseLinkedLines : List (List Char) → Bool → List (List Char)
  | [], _ => []
  | ln :: rest, inLinked =>
      if containsSub ("linked_entries:").data ln then parseLinkedLines rest true
      else if inLinked && ("- ").data.isPrefixOf (listStrip ln) then
        (listStrip ln).drop 2 :: parseLinkedLines rest inLinked
      else parseLinkedLines rest false

def read_journal_linked_entries (content : List Char) : List (List Char) :=
  if fmSep.isPrefixOf content then
    match findSub fmSep content 4 with
    | some endFM =>
        let front_matter := (content.drop 4).take (endFM - 4)
        if containsSub ("linked_entries:").data front_matter then
          parseLinkedLines (splitNl front_matter) false
        else []
    | Option.none => []
  else []

/-- A day document holding one linked entry `aaa` plus body text. -/
def contentC9 : List Char :=
  ("---\ndate: 2025-03-10\nlinked_entries:\n  - aaa\n---\n# Monday\n\n## 10:00\n\ncaminata\n\n").data

def jsC9 : List (Date × List Char) := [(⟨2025, 3, 10⟩, contentC9)]

/-!
Section: Cross-referencing (src/agent_tools.py `link_entries`)
-/

/-- Modelled from the spec: `add_journal_ref_to_entry` is imported by
src/agent_tools.py (lines 12-20) from the storage module but the function
itself is absent from the source tree.  Per the spec (§3 Link, §4.1) the
Entry side of a link holds `{journal_date, link_type}` back-references, so
the operation finds the entry by id across the category collections, appends
the pair to its `journal_refs` list, and reports `False` when no entry with
the id exists. -/
def add_journal_ref_to_entry (entry_id : Nat) (journal_date : Date)
    (link_type : String) (s : BrainStore) : Bool × BrainStore :=
  match get_entry_by_id entry_id s.files with
  | Option.none => (false, s)
  | some _ =>
      (true, { s with files := s.files.map fun p =>
        (p.1, p.2.map fun e =>
          if e.id = entry_id then
            { e with journal_refs := e.journal_refs ++ [(journal_date, link_type)] }
          else e) })

structure LinkResult where
  success : Bool
  error : Option String
deriving DecidableEq, Repr

/-- Source `link_entries` (src/agent_tools.py lines 962-1003), after the ISO date
parse of lines 966-972 (an unparseable `journal_date` string returns an error
envelope before either store is touched, so the model takes the parsed
`Date`): the journal-side update runs first; only when it succeeds is the
entry-side update attempted; each failure is mapped to its own error
message; success is reported only when both sides succeeded. -/
def link_entries (journal_date : Date) (entry_id : Nat) (link_type : String)
    (brain : BrainStore) (js : List (Date × List Char)) :
    LinkResult × BrainStore × List (Date × List Char) :=
  let jres := add_linked_entry_to_journal journal_date (toString entry_id) js
  if jres.1 = false then
    (⟨false, some "Journal entry not found or failed to update"⟩, brain, jres.2)
  else
    let eres := add_journal_ref_to_entry entry_id journal_date link_type brain
    if eres.1 = false then
      (⟨false, some "Knowledge entry not found or failed to update"⟩, eres.2, jres.2)
    else
      (⟨true, Option.none⟩, eres.2, jres.2)

/-!
Section: Tool dispatcher (src/agent_tools.py `execute_tool`, lines 1329-1404)

`execute_tool` selects a handler by name.  Most branches call the handler as
`handler(**tool_input)`: Python binds the dict's keys against the function's
parameter names *before* the handler body (and its `try/except`) runs, so a
missing required parameter or an unexpected key raises `TypeError` out of
`execute_tool`; the `complete_reminder` branch subscripts
`tool_input["reminder_id"]`, raising `KeyError` when absent.  The
`read_journal`/`list_reminders` branches use `.get` and the
`git_status`/`list_skills` branches ignore the input, so they never raise at
dispatch.  Handler bodies themselves return result envelopes on every
non-OS-fault path (each is wrapped in `try/except Exception` or returns a
dict on all paths), so they are abstracted as an envelope-valued function
`H`. -/

inductive PyVal where
  | str (s : String)
  | int (n : Int)
  | num (q : ℚ)
  | bool (b : Bool)
  | list (l : List PyVal)
  | none

def ToolInput := List (String × PyVal)

structure Envelope where
  success : Bool
  error : Option String
deriving DecidableEq, Repr

inductive PyExn where
  | typeError (fn : String)
  | keyError (key : String)
deriving DecidableEq, Repr

def inputKeys (input : ToolInput) : List String :=
  (List.map Prod.fst) input

/-- Python keyword binding of `fn(**input)` against a signature: every
required parameter present, no key outside the parameter list. -/
def bindsOk (required optional : List String) (input : ToolInput) : Bool :=
  required.all (fun k => (inputKeys input).contains k)
  && (inputKeys input).all (fun k => (required ++ optional).contains k)

def starCall (H : String → ToolInput → Envelope) (fn : String)
    (required optional : List String) (input : ToolInput) : Except PyExn Envelope :=
  if bindsOk required optional input then Except.ok (H fn input)
  else Except.error (PyExn.typeError fn)

/-- The names of `TOOL_DEFINITIONS` (src/agent_tools.py lines 35-541). -/
def TOOL_NAMES : List String :=
  ["list_entries", "search_entries", "get_entry", "create_entry", "move_entry",
   "delete_entry", "write_journal", "read_journal", "search_journal",
   "create_reminder", "list_reminders", "complete_reminder", "link_entries",
   "get_audio_file", "list_files", "read_file", "write_file", "search_repo",
   "git_status", "git_diff", "publish_changes", "restart_service", "tail_log",
   "list_skills", "install_skill", "enable_skill", "disable_skill",
   "remove_skill"]

/-- Source `execute_tool` (lines 1329-1404).  Required/optional parameter lists are
the Python `def` signatures of the handlers (note `get_audio_file` takes
`date_str`, not the schema's `date`). -/
def execute_tool (H : String → ToolInput → Envelope) (tool_name : String)
    (tool_input : ToolInput) : Except PyExn Envelope :=
  if tool_name = "list_entries" then
    starCall H tool_name ["category"] ["limit"] tool_input
  else if tool_name = "search_entries" then
    starCall H tool_name ["query"] ["categories", "limit"] tool_input
  else if tool_name = "get_entry" then
    starCall H tool_name ["entry_id"] [] tool_input
  else if tool_name = "create_entry" then
    starCall H tool_name ["category", "message", "confidence"]
      ["chat_id", "message_id"] tool_input
  else if tool_name = "move_entry" then
    starCall H tool_name ["entry_id", "from_category", "to_category"] [] tool_input
  else if tool_name = "delete_entry" then
    starCall H tool_name ["entry_id", "category"] [] tool_input
  else if tool_name = "write_journal" then
    starCall H tool_name ["content"] ["timestamp", "linked_entries"] tool_input
  else if tool_name = "read_journal" then Except.ok (H tool_name tool_input)
  else if tool_name = "search_journal" then
    starCall H tool_name ["query"] ["date_from", "date_to"] tool_input
  else if tool_name = "create_reminder" then
    starCall H tool_name ["content"]
      ["trigger_time", "repeat", "reference_entry_id", "journal_date"] tool_input
  else if tool_name = "list_reminders" then Except.ok (H tool_name tool_input)
  else if tool_name = "complete_reminder" then
    (if (inputKeys tool_input).contains "reminder_id" then
      Except.ok (H tool_name tool_input)
     else Except.error (PyExn.keyError "reminder_id"))
  else if tool_name = "link_entries" then
    starCall H tool_name ["journal_date", "entry_id", "link_type"] [] tool_input
  else if tool_name = "get_audio_file" then
    starCall H tool_name ["date_str", "index"] [] tool_input
  else if tool_name = "list_files" then
    starCall H tool_name []
      ["path", "max_depth", "include_hidden", "max_entries"] tool_input
  else if tool_name = "read_file" then
    starCall H tool_name ["path"] ["max_bytes"] tool_input
  else if tool_name = "write_file" then
    starCall H tool_name ["path", "content"] ["create_dirs"] tool_input
  else if tool_name = "search_repo" then
    starCall H tool_name ["query"] ["path", "max_results"] tool_input
  else if tool_name = "git_status" then Except.ok (H tool_name tool_input)
  else if tool_name = "git_diff" then
    starCall H tool_name [] ["staged", "path"] tool_input
  else if tool_name = "publish_changes" then
    starCall H tool_name [] ["message"] tool_input
  else if tool_name = "restart_service" then
    starCall H tool_name [] ["service_name"] tool_input
  else if tool_name = "tail_log" then
    starCall H tool_name [] ["lines"] tool_input
  else if tool_name = "list_skills" then Except.ok (H tool_name tool_input)
  else if tool_name = "install_skill" then
    starCall H tool_name ["name", "repo_url"] [] tool_input
  else if tool_name = "enable_skill" then
    starCall H tool_name ["name"] [] tool_input
  else if tool_name = "disable_skill" then
    starCall H tool_name ["name"] [] tool_input
  else if tool_name = "remove_skill" then
    starCall H tool_name ["name"] [] tool_input
  else Except.ok ⟨false, some ("Unknown tool: " ++ tool_name)⟩

/-- The input binds to the named tool's Python signature (vacuously true for
the `.get`-style and argument-less branches, and for unknown names, which
never raise). -/
def bindsFor (tool_name : String) (tool_input : ToolInput) : Bool :=
  if tool_name = "list_entries" then bindsOk ["category"] ["limit"] tool_input
  else if tool_name = "search_entries" then
    bindsOk ["query"] ["categories", "limit"] tool_input
  else if tool_name = "get_entry" then bindsOk ["entry_id"] [] tool_input
  else if tool_name = "create_entry" then
    bindsOk ["category", "message", "confidence"] ["chat_id", "message_id"] tool_input
  else if tool_name = "move_entry" then
    bindsOk ["entry_id", "from_category", "to_category"] [] tool_input
  else if tool_name = "delete_entry" then
    bindsOk ["entry_id", "category"] [] tool_input
  else if tool_name = "write_journal" then
    bindsOk ["content"] ["timestamp", "linked_entries"] tool_input
  else if tool_name = "read_journal" then true
  else if tool_name = "search_journal" then
    bindsOk ["query"] ["date_from", "date_to"] tool_input
  else if tool_name = "create_reminder" then
    bindsOk ["content"]
      ["trigger_time", "repeat", "reference_entry_id", "journal_date"] tool_input
  else if tool_name = "list_reminders" then true
  else if tool_name = "complete_reminder" then
    (inputKeys tool_input).contains "reminder_id"
  else if tool_name = "link_entries" then
    bindsOk ["journal_date", "entry_id", "link_type"] [] tool_input
  else if tool_name = "get_audio_file" then
    bindsOk ["date_str", "index"] [] tool_input
  else if tool_name = "list_files" then
    bindsOk [] ["path", "max_depth", "include_hidden", "max_entries"] tool_input
  else if tool_name = "read_file" then bindsOk ["path"] ["max_bytes"] tool_input
  else if tool_name = "write_file" then
    bindsOk ["path", "content"] ["create_dirs"] tool_input
  else if tool_name = "search_repo" then
    bindsOk ["query"] ["path", "max_results"] tool_input
  else if tool_name = "git_status" then true
  else if tool_name = "git_diff" then bindsOk [] ["staged", "path"] tool_input
  else if tool_name = "publish_changes" then bindsOk [] ["message"] tool_input
  else if tool_name = "restart_service" then
    bindsOk [] ["service_name"] tool_input
  else if tool_name = "tail_log" then bindsOk [] ["lines"] tool_input
  else if tool_name = "list_skills" then true
  else if tool_name = "install_skill" then
    bindsOk ["name", "repo_url"] [] tool_input
  else if tool_name = "enable_skill" then bindsOk ["name"] [] tool_input
  else if tool_name = "disable_skill" then bindsOk ["name"] [] tool_input
  else if tool_name = "remove_skill" then bindsOk ["name"] [] tool_input
  else true

def hOk : String → ToolInput → Envelope := fun _ _ => ⟨true, Option.none⟩

/-!
Section: Lemmas and claim theorems
-/

lemma head?_dropWhile_all (p : α → Bool) (l : List α) :
    ((l.dropWhile p).head?.all fun x => !p x) = true := by
  induction l with
  | nil => rfl
  | cons hd tl ih =>
      by_cases hp : p hd
      · simpa [List.dropWhile, hp] using ih
      · simp [List.dropWhile, hp]

/-- C1 counterexample: retrieving the two stored turns returns a window whose
last turn is an assistant tool-call-request with no paired result following —
`get_conversation_history` trims only the front of the window, never the end. -/
theorem get_conversation_history_end_untrimmed :
    endsWithUnresolvedToolUse (get_conversation_history exHistoryC1 2) = true := by
  rfl

/-- C1 (amended): for every stored history and every retrieval limit the
returned window never begins with a user turn containing a tool-call-result
block, and never begins with an assistant turn containing a tool-call-request
block; no trimming is performed at the end of the window. -/
theorem get_conversation_history_head_trimmed (messages : List Message) (limit : Nat) :
    ((get_conversation_history messages limit).head?.all
      fun m => !(isOrphanToolResultMsg m || isLeadingToolUseMsg m)) = true := by
  unfold get_conversation_history
  exact head?_dropWhile_all _ _

/-- C10: the window never begins with an assistant turn containing a
`tool_use` block; consequently (second conjunct, witnessed concretely) the
window can hold fewer than `limit` turns even when the store holds at least
`limit` turns. -/
theorem get_conversation_history_drops_leading_tool_use :
    (∀ (messages : List Message) (limit : Nat),
      ((get_conversation_history messages limit).head?.all
        fun m => !isLeadingToolUseMsg m) = true)
    ∧ ∃ (messages : List Message) (limit : Nat),
        limit ≤ messages.length ∧ (get_conversation_history messages limit).length < limit := by
  constructor
  · intro messages limit
    have h := head?_dropWhile_all
      (fun m => isOrphanToolResultMsg m || isLeadingToolUseMsg m)
      (if limit ≠ 0 then takeLast limit messages else messages)
    unfold get_conversation_history
    cases hh : (if limit ≠ 0 then takeLast limit messages else messages).dropWhile
        (fun m => isOrphanToolResultMsg m || isLeadingToolUseMsg m) with
    | nil => simp [hh]
    | cons a l =>
        rw [hh] at h
        simp only [List.head?, Option.all] at h ⊢
        rcases Bool.or_eq_false_iff.mp (by simpa using h) with ⟨_, h2⟩
        simp [h2]
  · exact ⟨[⟨"assistant", .blocks [.tool_use "toolu_02" "get_entry"]⟩], 1, by decide⟩

lemma daysInMonth_ge (y m : Nat) : 28 ≤ daysInMonth y m := by
  unfold daysInMonth
  repeat' split
  all_goals omega

lemma daysInMonth_le (y m : Nat) : daysInMonth y m ≤ 31 := by
  unfold daysInMonth
  repeat' split
  all_goals omega

lemma addDays_add (d : Date) (a b : Nat) :
    addDays d (a + b) = addDays (addDays d a) b := by
  induction b with
  | zero => rfl
  | succ b ih => rw [← Nat.add_assoc, addDays, ih, addDays]

lemma addDays_in_month (y m k : Nat) (hk : k < daysInMonth y m) :
    addDays ⟨y, m, 1⟩ k = ⟨y, m, 1 + k⟩ := by
  induction k with
  | zero => rfl
  | succ k ih =>
      rw [addDays, ih (Nat.lt_of_succ_lt hk)]
      unfold nextDay
      rw [if_pos (by simpa [Nat.add_comm] using hk)]
      simp [Nat.add_comm, Nat.add_assoc]

/-- First day of month `m`, plus 32 days, truncated to the first of the
resulting month, minus one day: the last day of month `m`.  This is the
`ValueError` fallback of `process_triggered_reminders` (lines 230-234). -/
lemma fallback_eq_last_day (y m : Nat) (h1 : 1 ≤ m) (h2 : m ≤ 12) :
    prevDay ⟨(addDays ⟨y, m, 1⟩ 32).year, (addDays ⟨y, m, 1⟩ 32).month, 1⟩
      = ⟨y, m, daysInMonth y m⟩ := by
  have hge := daysInMonth_ge y m
  have hle := daysInMonth_le y m
  have hstep : addDays (⟨y, m, 1⟩ : Date) (daysInMonth y m) =
      nextDay ⟨y, m, daysInMonth y m⟩ := by
    have h0 : addDays (⟨y, m, 1⟩ : Date) (daysInMonth y m)
        = addDays (addDays ⟨y, m, 1⟩ (daysInMonth y m - 1)) 1 := by
      rw [← addDays_add]
      congr 1
      omega
    rw [h0, addDays_in_month y m _ (by omega),
      show 1 + (daysInMonth y m - 1) = daysInMonth y m by omega]
    rfl
  have h32 : addDays (⟨y, m, 1⟩ : Date) 32 =
      addDays (nextDay ⟨y, m, daysInMonth y m⟩) (32 - daysInMonth y m) := by
    conv_lhs => rw [show (32 : Nat) = daysInMonth y m + (32 - daysInMonth y m) by omega]
    rw [addDays_add, hstep]
  by_cases hm : m < 12
  · have hnext : nextDay (⟨y, m, daysInMonth y m⟩ : Date) = ⟨y, m + 1, 1⟩ := by
      simp only [nextDay]
      rw [if_neg (by omega), if_pos hm]
    have hrest : addDays (⟨y, m + 1, 1⟩ : Date) (32 - daysInMonth y m) =
        ⟨y, m + 1, 1 + (32 - daysInMonth y m)⟩ :=
      addDays_in_month y (m + 1) _ (by have := daysInMonth_ge y (m + 1); omega)
    rw [h32, hnext, hrest]
    simp only [prevDay]
    rw [if_neg (by omega), if_pos (by omega)]
    simp
  · have hm12 : m = 12 := by omega
    subst hm12
    have hnext : nextDay (⟨y, 12, daysInMonth y 12⟩ : Date) = ⟨y + 1, 1, 1⟩ := by
      simp only [nextDay]
      rw [if_neg (by omega), if_neg (by omega)]
    have hrest : addDays (⟨y + 1, 1, 1⟩ : Date) (32 - daysInMonth y 12) =
        ⟨y + 1, 1, 1 + (32 - daysInMonth y 12)⟩ :=
      addDays_in_month (y + 1) 1 _ (by have := daysInMonth_ge (y + 1) 1; omega)
    rw [h32, hnext, hrest]
    simp only [prevDay]
    rw [if_neg (by omega), if_neg (by omega)]
    simp [daysInMonth]

lemma monthRollover_bounds (y m : Nat) (h1 : 1 ≤ m) (h2 : m ≤ 12) :
    1 ≤ (monthRollover y m).2 ∧ (monthRollover y m).2 ≤ 12 := by
  unfold monthRollover
  split
  · simp
  · simp
    omega

/-- The source's monthly arithmetic equals the clamped-next-month policy the
spec describes (in particular Jan 31 advances to Feb 28, or Feb 29 in leap
years). -/
lemma monthlyNextDate_eq_clamped (d : Date) (h : d.valid) :
    monthlyNextDate d =
      ⟨(monthRollover d.year d.month).1, (monthRollover d.year d.month).2,
        min d.day (daysInMonth (monthRollover d.year d.month).1
          (monthRollover d.year d.month).2)⟩ := by
  obtain ⟨h1, h2, _, _⟩ := h
  obtain ⟨hb1, hb2⟩ := monthRollover_bounds d.year d.month h1 h2
  unfold monthlyNextDate
  by_cases hd : d.day ≤ daysInMonth (monthRollover d.year d.month).1
      (monthRollover d.year d.month).2
  · rw [if_pos hd]
    simp [Nat.min_eq_left hd]
  · rw [if_neg hd]
    rw [fallback_eq_last_day (monthRollover d.year d.month).1
      (monthRollover d.year d.month).2 hb1 hb2]
    simp [Nat.min_eq_right (by omega : daysInMonth (monthRollover d.year d.month).1
      (monthRollover d.year d.month).2 ≤ d.day)]

lemma next_trigger_eq_spec (rep : RepeatKind) (t : DateTime) (h : t.date.valid) :
    next_trigger rep t = specNextTrigger rep t := by
  cases rep with
  | monthly =>
      simp only [next_trigger, specNextTrigger, monthlyNextDate_eq_clamped t.date h]
  | none => rfl
  | daily => rfl
  | weekly => rfl

lemma markTriggered_nil (l : List Reminder) : markTriggered [] l = l := by
  induction l with
  | nil => rfl
  | cons a t ih =>
      simp only [markTriggered, List.map_cons, List.not_mem_nil, if_false]
      exact congrArg _ ih

lemma markTriggered_map_id (ids : List Nat) (l : List Reminder) :
    (markTriggered ids l).map Reminder.id = l.map Reminder.id := by
  induction l with
  | nil => rfl
  | cons a t ih =>
      simp only [markTriggered, List.map_cons] at ih ⊢
      by_cases h : a.id ∈ ids
      · simp [h, ih]
      · simp [h, ih]

lemma markTriggered_lt (ids : List Nat) (l : List Reminder) (n : Nat)
    (h : ∀ x ∈ l, x.id < n) : ∀ x ∈ markTriggered ids l, x.id < n := by
  intro x hx
  rcases List.mem_map.mp hx with ⟨y, hy, rfl⟩
  by_cases hm : y.id ∈ ids
  · simpa [hm] using h y hy
  · simpa [hm] using h y hy

lemma markTriggered_append (ids : List Nat) (a b : List Reminder) :
    markTriggered ids (a ++ b) = markTriggered ids a ++ markTriggered ids b :=
  List.map_append _ _ _

lemma markTriggered_of_not_mem (ids : List Nat) (l : List Reminder)
    (h : ∀ x ∈ l, x.id ∉ ids) : markTriggered ids l = l := by
  induction l with
  | nil => rfl
  | cons a t ih =>
      simp only [markTriggered, List.map_cons] at ih ⊢
      rw [if_neg (h a (List.mem_cons_self a t))]
      rw [ih fun x hx => h x (List.mem_cons_of_mem a hx)]

lemma markTriggered_compose (ids₁ ids₂ : List Nat) (l : List Reminder) :
    markTriggered ids₂ (markTriggered ids₁ l) = markTriggered (ids₁ ++ ids₂) l := by
  induction l with
  | nil => rfl
  | cons a t ih =>
      simp only [markTriggered, List.map_cons] at ih ⊢
      by_cases h1 : a.id ∈ ids₁
      · by_cases h2 : a.id ∈ ids₂ <;>
          simp [h1, h2, ih, List.mem_append]
      · by_cases h2 : a.id ∈ ids₂ <;>
          simp [h1, h2, ih, List.mem_append]

lemma update_eq_markTriggered (i : Nat) (l : List Reminder)
    (hno : (l.map Reminder.id).Nodup) :
    update_reminder_status i .triggered l = markTriggered [i] l := by
  induction l with
  | nil => rfl
  | cons a t ih =>
      simp only [List.map_cons, List.nodup_cons] at hno
      obtain ⟨ha, ht⟩ := hno
      by_cases h : a.id = i
      · have htt : markTriggered [i] t = t := by
          apply markTriggered_of_not_mem
          intro x hx hmem
          have hxm : x.id ∈ t.map Reminder.id := List.mem_map_of_mem Reminder.id hx
          rw [List.mem_singleton] at hmem
          rw [hmem, ← h] at hxm
          exact ha hxm
        simp only [update_reminder_status, markTriggered, List.map_cons]
        rw [if_pos h, if_pos (List.mem_singleton.mpr h)]
        exact congrArg _ htt.symm
      · simp only [update_reminder_status, markTriggered, List.map_cons]
        rw [if_neg h, if_neg (by rw [List.mem_singleton]; exact h)]
        exact congrArg _ (ih ht)

lemma spawnsOf_id_bounds (ds : List Reminder) :
    ∀ (n : Nat) (x : Reminder), x ∈ spawnsOf ds n →
      n ≤ x.id ∧ x.id < n + repeatCount ds := by
  induction ds with
  | nil => intro n x hx; simp [spawnsOf] at hx
  | cons r rest ih =>
      intro n x hx
      by_cases h : r.repeat_ = .none
      · simp only [spawnsOf, if_pos h] at hx
        have := ih n x hx
        simp only [repeatCount, if_pos h]
        omega
      · simp only [spawnsOf, if_neg h] at hx
        simp only [repeatCount, if_neg h]
        rcases List.mem_cons.mp hx with hx | hx
        · subst hx
          simp only [mkSpawn]
          omega
        · have := ih (n + 1) x hx
          omega

lemma spawnsOf_nodup (ds : List Reminder) :
    ∀ n : Nat, ((spawnsOf ds n).map Reminder.id).Nodup := by
  induction ds with
  | nil => intro n; simp [spawnsOf]
  | cons r rest ih =>
      intro n
      by_cases h : r.repeat_ = .none
      · simpa [spawnsOf, h] using ih n
      · simp only [spawnsOf, if_neg h, List.map_cons, List.nodup_cons]
        refine ⟨?_, ih (n + 1)⟩
        intro hmem
        rcases List.mem_map.mp hmem with ⟨y, hy, hid⟩
        have := (spawnsOf_id_bounds rest (n + 1) y hy).1
        simp [mkSpawn] at hid
        omega

lemma process_step_spec (r : Reminder) (l : List Reminder) (n : Nat)
    (hno : (l.map Reminder.id).Nodup) :
    process_step r ⟨l, n⟩ =
      if r.repeat_ = .none then (⟨markTriggered [r.id] l, n⟩ : ReminderStore)
      else ⟨markTriggered [r.id] l ++ [mkSpawn r n], n + 1⟩ := by
  by_cases h : r.repeat_ = .none
  · simp [process_step, h, update_eq_markTriggered r.id l hno]
  · simp [process_step, h, update_eq_markTriggered r.id l hno, create_reminder, mkSpawn]

/-- Characterization of the processing loop over a due snapshot `ds`: every
listed id is marked `triggered` in place, one next-occurrence per repeating
due reminder is appended with consecutively issued fresh ids, and the
snapshot itself is returned for notification. -/
lemma process_loop_spec (ds : List Reminder) :
    ∀ (l : List Reminder) (n : Nat),
      (l.map Reminder.id).Nodup →
      (∀ x ∈ l, x.id < n) →
      (∀ r ∈ ds, r.id ∈ l.map Reminder.id) →
      process_loop ds ⟨l, n⟩ =
        (ds, ⟨markTriggered (ds.map Reminder.id) l ++ spawnsOf ds n,
              n + repeatCount ds⟩) := by
  induction ds with
  | nil =>
      intro l n _ _ _
      simp [process_loop, markTriggered_nil, spawnsOf, repeatCount]
  | cons r rest ih =>
      intro l n hno hlt hsub
      have hrid : r.id ∈ l.map Reminder.id := hsub r (List.mem_cons_self r rest)
      simp only [process_loop, process_step_spec r l n hno]
      by_cases hrep : r.repeat_ = .none
      · rw [if_pos hrep]
        have hno1 : ((markTriggered [r.id] l).map Reminder.id).Nodup := by
          rw [markTriggered_map_id]; exact hno
        have hlt1 : ∀ x ∈ markTriggered [r.id] l, x.id < n :=
          markTriggered_lt _ _ _ hlt
        have hsub1 : ∀ x ∈ rest, x.id ∈ (markTriggered [r.id] l).map Reminder.id := by
          intro x hx
          rw [markTriggered_map_id]
          exact hsub x (List.mem_cons_of_mem r hx)
        rw [ih (markTriggered [r.id] l) n hno1 hlt1 hsub1]
        simp only [markTriggered_compose, spawnsOf, repeatCount, if_pos hrep,
          List.map_cons, List.singleton_append, Nat.zero_add]
      · rw [if_neg hrep]
        have hids : ((markTriggered [r.id] l ++ [mkSpawn r n]).map Reminder.id)
            = l.map Reminder.id ++ [n] := by
          rw [List.map_append, markTriggered_map_id]
          simp [mkSpawn]
        have hno1 : ((markTriggered [r.id] l ++ [mkSpawn r n]).map Reminder.id).Nodup := by
          rw [hids, List.nodup_append]
          refine ⟨hno, List.nodup_singleton n, ?_⟩
          intro a ha hb
          rcases List.mem_singleton.mp hb with rfl
          rcases List.mem_map.mp ha with ⟨y, hy, hid⟩
          exact absurd (hid ▸ hlt y hy) (lt_irrefl a)
        have hlt1 : ∀ x ∈ markTriggered [r.id] l ++ [mkSpawn r n], x.id < n + 1 := by
          intro x hx
          rcases List.mem_append.mp hx with hx | hx
          · exact Nat.lt_succ_of_lt (markTriggered_lt _ _ _ hlt x hx)
          · rcases List.mem_singleton.mp hx with rfl
            simp [mkSpawn]
        have hsub1 : ∀ x ∈ rest,
            x.id ∈ (markTriggered [r.id] l ++ [mkSpawn r n]).map Reminder.id := by
          intro x hx
          rw [hids]
          exact List.mem_append_left _ (hsub x (List.mem_cons_of_mem r hx))
        rw [ih (markTriggered [r.id] l ++ [mkSpawn r n]) (n + 1) hno1 hlt1 hsub1]
        have hskip : markTriggered (rest.map Reminder.id) [mkSpawn r n] = [mkSpawn r n] := by
          apply markTriggered_of_not_mem
          intro x hx hmem
          rcases List.mem_singleton.mp hx with rfl
          rcases List.mem_map.mp hmem with ⟨y, hy, hid⟩
          have hylt : y.id < n := by
            have hym : y.id ∈ l.map Reminder.id := hsub y (List.mem_cons_of_mem r hy)
            rcases List.mem_map.mp hym with ⟨z, hz, hzy⟩
            exact hzy ▸ hlt z hz
          simp [mkSpawn] at hid
          omega
        rw [markTriggered_append, hskip, markTriggered_compose]
        simp only [spawnsOf, repeatCount, if_neg hrep, List.map_cons, Prod.mk.injEq,
          ReminderStore.mk.injEq, List.append_assoc, List.singleton_append]
        exact ⟨trivial, trivial, by omega⟩

lemma mem_get_triggered (now : DateTime) (s : ReminderStore) (r : Reminder) :
    r ∈ get_triggered_reminders now s ↔
      r ∈ s.reminders ∧ r.status = .pending ∧ DateTime.le r.trigger_time now = true := by
  unfold get_triggered_reminders
  rw [List.mem_filter]
  simp [Bool.and_eq_true, and_assoc]

lemma process_spec (now : DateTime) (s : ReminderStore) (hwf : s.wf) :
    process_triggered_reminders now s =
      (get_triggered_reminders now s,
       ⟨markTriggered ((get_triggered_reminders now s).map Reminder.id) s.reminders
          ++ spawnsOf (get_triggered_reminders now s) s.nextId,
        s.nextId + repeatCount (get_triggered_reminders now s)⟩) := by
  obtain ⟨hno, hlt⟩ := hwf
  unfold process_triggered_reminders
  apply process_loop_spec _ _ _ hno hlt
  intro r hr
  exact List.mem_map_of_mem Reminder.id ((mem_get_triggered now s r).mp hr).1

lemma process_wf (now : DateTime) (s : ReminderStore) (hwf : s.wf) :
    (process_triggered_reminders now s).2.wf := by
  obtain ⟨hno, hlt⟩ := hwf
  rw [process_spec now s ⟨hno, hlt⟩]
  refine ⟨?_, ?_⟩
  · show ((markTriggered ((get_triggered_reminders now s).map Reminder.id) s.reminders
        ++ spawnsOf (get_triggered_reminders now s) s.nextId).map Reminder.id).Nodup
    rw [List.map_append, markTriggered_map_id, List.nodup_append]
    refine ⟨hno, spawnsOf_nodup _ _, ?_⟩
    intro a ha hb
    rcases List.mem_map.mp ha with ⟨y, hy, rfl⟩
    rcases List.mem_map.mp hb with ⟨z, hz, hza⟩
    have hzb := (spawnsOf_id_bounds _ _ z hz).1
    have := hlt y hy
    omega
  · intro r hr
    show r.id < s.nextId + repeatCount (get_triggered_reminders now s)
    rcases List.mem_append.mp hr with hr | hr
    · have := markTriggered_lt _ s.reminders s.nextId hlt r hr
      omega
    · have := (spawnsOf_id_bounds _ _ r hr).2
      omega

lemma filter_false_nil (L : List Reminder) (Q : Reminder → Bool)
    (h : ∀ y ∈ L, Q y = false) : L.filter Q = [] := by
  induction L with
  | nil => rfl
  | cons a t ih =>
      rw [List.filter_cons_of_neg]
      · exact ih fun y hy => h y (List.mem_cons_of_mem a hy)
      · simp [h a (List.mem_cons_self a t)]

lemma filter_id_nil (t : List Reminder) (c : Nat) (h : ∀ y ∈ t, y.id ≠ c) :
    (t.filter fun y => decide (y.id = c)) = [] :=
  filter_false_nil t _ fun y hy => by simp [h y hy]

lemma filter_id_unique (l : List Reminder) (x : Reminder)
    (hno : (l.map Reminder.id).Nodup) (hx : x ∈ l) :
    (l.filter fun y => decide (y.id = x.id)) = [x] := by
  induction l with
  | nil => cases hx
  | cons a t ih =>
      simp only [List.map_cons, List.nodup_cons] at hno
      obtain ⟨ha, ht⟩ := hno
      rcases List.mem_cons.mp hx with he | hx
      · subst he
        rw [List.filter_cons_of_pos (by simp)]
        rw [filter_id_nil t x.id
          fun y hy hye => ha (hye ▸ List.mem_map_of_mem Reminder.id hy)]
      · have hane : ¬ (a.id = x.id) :=
          fun he => ha (he ▸ List.mem_map_of_mem Reminder.id hx)
        rw [List.filter_cons_of_neg (by simp [hane])]
        exact ih ht hx

lemma filter_eq_singleton_of_unique (l : List Reminder) (Q : Reminder → Bool)
    (r : Reminder) (hl : l.Nodup) (hr : r ∈ l) (hQr : Q r = true)
    (huni : ∀ x ∈ l, Q x = true → x = r) : l.filter Q = [r] := by
  induction l with
  | nil => cases hr
  | cons a t ih =>
      rw [List.nodup_cons] at hl
      obtain ⟨hat, ht⟩ := hl
      rcases List.mem_cons.mp hr with he | hr
      · subst he
        have hnil : t.filter Q = [] := by
          apply filter_false_nil
          intro y hy
          by_contra hQy
          rw [Bool.not_eq_false] at hQy
          exact hat ((huni y (List.mem_cons_of_mem r hy) hQy) ▸ hy)
        rw [List.filter_cons_of_pos hQr, hnil]
      · have haQ : Q a = false := by
          by_contra hQa
          rw [Bool.not_eq_false] at hQa
          exact hat (by rw [huni a (List.mem_cons_self a t) hQa]; exact hr)
        rw [List.filter_cons_of_neg (by simp [haQ])]
        exact ih ht hr fun x hx hQx => huni x (List.mem_cons_of_mem a hx) hQx

lemma spawnsOf_count_match (r : Reminder) (origIds : List Nat)
    (ds : List Reminder) :
    ∀ n : Nat, (∀ k, n ≤ k → k ∉ origIds) →
      ((spawnsOf ds n).filter (newSpawnMatch origIds r)).length
        = (ds.filter fun x => decide (x.repeat_ ≠ RepeatKind.none)
            && decide (x.content = r.content) && decide (x.repeat_ = r.repeat_)
            && decide (next_trigger x.repeat_ x.trigger_time
                = specNextTrigger r.repeat_ r.trigger_time)).length := by
  induction ds with
  | nil => intro n _; simp [spawnsOf]
  | cons x rest ih =>
      intro n hn
      by_cases hxr : x.repeat_ = RepeatKind.none
      · simp only [spawnsOf, if_pos hxr, List.filter_cons]
        simp [hxr, ih n hn]
      · have ihh := ih (n + 1) fun k hk => hn k (by omega)
        simp only [spawnsOf, if_neg hxr, List.filter_cons]
        by_cases h2 : x.repeat_ = r.repeat_
        · rw [h2] at hxr
          by_cases h1 : x.content = r.content <;>
            by_cases h3 : next_trigger r.repeat_ x.trigger_time
                = specNextTrigger r.repeat_ r.trigger_time <;>
              simp [newSpawnMatch, mkSpawn, h1, h2, h3, hxr,
                hn n (Nat.le_refl n), ihh]
        · simp [newSpawnMatch, mkSpawn, h2, hn n (Nat.le_refl n), ihh]

/-- C2: a due pending repeating reminder is returned for notification, its
stored record transitions to `triggered`, and exactly one fresh pending
reminder exists afterwards with the same content and repeat, no carried
`journal_date`, and the trigger time advanced daily +1 day / weekly +7 days /
monthly same-day-next-month clamped to that month's last day (Jan 31 becomes
Feb 28, or Feb 29 in leap years).  The uniqueness hypothesis pins the
spawned occurrence to `r` when several due reminders share an identical
profile. -/
theorem process_repeats_spawn_once (s : ReminderStore) (now : DateTime) (r : Reminder)
    (hwf : s.wf) (hvalid : r.trigger_time.date.valid)
    (hr : r ∈ s.reminders) (hpend : r.status = ReminderStatus.pending)
    (hrep : r.repeat_ ≠ RepeatKind.none)
    (hdue : DateTime.le r.trigger_time now = true)
    (huniq : ∀ x ∈ s.reminders, x.status = ReminderStatus.pending →
        DateTime.le x.trigger_time now = true → x.content = r.content →
        x.repeat_ = r.repeat_ →
        next_trigger x.repeat_ x.trigger_time = next_trigger r.repeat_ r.trigger_time →
        x.id = r.id) :
    r ∈ (process_triggered_reminders now s).1
    ∧ ((process_triggered_reminders now s).2.reminders.filter
        fun y => decide (y.id = r.id)) = [{ r with status := ReminderStatus.triggered }]
    ∧ ((process_triggered_reminders now s).2.reminders.filter
        (newSpawnMatch (s.reminders.map Reminder.id) r)).length = 1 := by
  obtain ⟨hno, hlt⟩ := hwf
  have hdl : r ∈ get_triggered_reminders now s :=
    (mem_get_triggered now s r).mpr ⟨hr, hpend, hdue⟩
  rw [process_spec now s ⟨hno, hlt⟩]
  refine ⟨hdl, ?_, ?_⟩
  · show ((markTriggered ((get_triggered_reminders now s).map Reminder.id) s.reminders
        ++ spawnsOf (get_triggered_reminders now s) s.nextId).filter
          fun y => decide (y.id = r.id)) = _
    rw [List.filter_append]
    have hsp : ((spawnsOf (get_triggered_reminders now s) s.nextId).filter
        fun y => decide (y.id = r.id)) = [] := by
      apply filter_false_nil
      intro y hy
      have h1 := (spawnsOf_id_bounds _ _ y hy).1
      have h2 := hlt r hr
      simp only [decide_eq_false_iff_not]
      omega
    rw [hsp]
    have hmm : ({ r with status := ReminderStatus.triggered } : Reminder) ∈
        markTriggered ((get_triggered_reminders now s).map Reminder.id) s.reminders := by
      apply List.mem_map.mpr
      exact ⟨r, hr, by rw [if_pos (List.mem_map_of_mem Reminder.id hdl)]⟩
    have hno2 : ((markTriggered ((get_triggered_reminders now s).map Reminder.id)
        s.reminders).map Reminder.id).Nodup := by
      rw [markTriggered_map_id]; exact hno
    have := filter_id_unique _ _ hno2 hmm
    simpa using this
  · show ((markTriggered ((get_triggered_reminders now s).map Reminder.id) s.reminders
        ++ spawnsOf (get_triggered_reminders now s) s.nextId).filter
          (newSpawnMatch (s.reminders.map Reminder.id) r)).length = 1
    rw [List.filter_append, List.length_append]
    have hmk : ((markTriggered ((get_triggered_reminders now s).map Reminder.id)
        s.reminders).filter (newSpawnMatch (s.reminders.map Reminder.id) r)) = [] := by
      apply filter_false_nil
      intro y hy
      have hmem : y.id ∈ s.reminders.map Reminder.id := by
        rw [← markTriggered_map_id ((get_triggered_reminders now s).map Reminder.id)]
        exact List.mem_map_of_mem Reminder.id hy
      simp [newSpawnMatch, hmem]
    rw [hmk]
    have hcount := spawnsOf_count_match r (s.reminders.map Reminder.id)
      (get_triggered_reminders now s) s.nextId
      (fun k hk hkm => by
        rcases List.mem_map.mp hkm with ⟨z, hz, hzk⟩
        have := hlt z hz
        omega)
    rw [List.length_nil, Nat.zero_add, hcount]
    have hsingle : ((get_triggered_reminders now s).filter
        fun x => decide (x.repeat_ ≠ RepeatKind.none)
          && decide (x.content = r.content) && decide (x.repeat_ = r.repeat_)
          && decide (next_trigger x.repeat_ x.trigger_time
              = specNextTrigger r.repeat_ r.trigger_time)) = [r] := by
      apply filter_eq_singleton_of_unique _ _ _
        ((hno.of_map).filter _) hdl
      · simp [hrep, next_trigger_eq_spec r.repeat_ r.trigger_time hvalid]
      · intro x hx hQ
        simp only [Bool.and_eq_true, decide_eq_true_eq] at hQ
        obtain ⟨⟨⟨hxrep, hxc⟩, hxr⟩, hxt⟩ := hQ
        obtain ⟨hxmem, hxp, hxdue⟩ := (mem_get_triggered now s x).mp hx
        have hxid := huniq x hxmem hxp hxdue hxc hxr
          (by rw [hxt, next_trigger_eq_spec r.repeat_ r.trigger_time hvalid])
        exact List.inj_on_of_nodup_map hno hxmem hr hxid
    rw [hsingle]
    rfl

/-- C3: running `processDue` twice with the same clock triggers each reminder
record at most once.  The two notification lists carry disjoint ids, every
record already `triggered` after the first run is returned by lookups over the
second run's store completely unchanged, and the second run's store is exactly
the first run's store with the second run's own due list marked and spawned —
so no duplicate next-occurrence is created for a reminder the first run
triggered. -/
theorem process_idempotent (s : ReminderStore) (now : DateTime) (hwf : s.wf) :
    (∀ a ∈ (process_triggered_reminders now s).1,
      ∀ b ∈ (process_triggered_reminders now (process_triggered_reminders now s).2).1,
        a.id ≠ b.id)
    ∧ (∀ x ∈ (process_triggered_reminders now s).2.reminders,
        x.status = ReminderStatus.triggered →
        ((process_triggered_reminders now
            (process_triggered_reminders now s).2).2.reminders.filter
          fun y => decide (y.id = x.id)) = [x])
    ∧ (process_triggered_reminders now
        (process_triggered_reminders now s).2).2.reminders
        = markTriggered
            (((process_triggered_reminders now
                (process_triggered_reminders now s).2).1).map Reminder.id)
            (process_triggered_reminders now s).2.reminders
          ++ spawnsOf
              (process_triggered_reminders now
                (process_triggered_reminders now s).2).1
              (process_triggered_reminders now s).2.nextId := by
  obtain ⟨hno, hlt⟩ := hwf
  have hwf1 : (process_triggered_reminders now s).2.wf := process_wf now s ⟨hno, hlt⟩
  obtain ⟨hno1, hlt1⟩ := hwf1
  have hrem1 : (process_triggered_reminders now s).2.reminders
      = markTriggered ((get_triggered_reminders now s).map Reminder.id) s.reminders
        ++ spawnsOf (get_triggered_reminders now s) s.nextId := by
    rw [process_spec now s ⟨hno, hlt⟩]
  refine ⟨?_, ?_, ?_⟩
  · intro a ha b hb hab
    have ha' : a ∈ get_triggered_reminders now s := by
      rw [process_spec now s ⟨hno, hlt⟩] at ha
      exact ha
    have hb' : b ∈ get_triggered_reminders now (process_triggered_reminders now s).2 := by
      rw [process_spec now _ ⟨hno1, hlt1⟩] at hb
      exact hb
    obtain ⟨haS, hap, hadue⟩ := (mem_get_triggered now s a).mp ha'
    obtain ⟨hbS, hbp, hbdue⟩ := (mem_get_triggered now _ b).mp hb'
    rw [hrem1] at hbS
    rcases List.mem_append.mp hbS with hbm | hbm
    · rcases List.mem_map.mp hbm with ⟨y, hy, hyb⟩
      by_cases hmem : y.id ∈ (get_triggered_reminders now s).map Reminder.id
      · rw [if_pos hmem] at hyb
        rw [← hyb] at hbp
        simp at hbp
      · rw [if_neg hmem] at hyb
        have hya : y.id = a.id := by rw [hyb, ← hab]
        exact hmem (hya ▸ List.mem_map_of_mem Reminder.id ha')
    · have hbge := (spawnsOf_id_bounds _ _ b hbm).1
      have := hlt a haS
      omega
  · intro x hx hxt
    have hrem2 : (process_triggered_reminders now
        (process_triggered_reminders now s).2).2.reminders
        = markTriggered ((get_triggered_reminders now
            (process_triggered_reminders now s).2).map Reminder.id)
            (process_triggered_reminders now s).2.reminders
          ++ spawnsOf (get_triggered_reminders now (process_triggered_reminders now s).2)
              (process_triggered_reminders now s).2.nextId := by
      rw [process_spec now _ ⟨hno1, hlt1⟩]
    rw [hrem2, List.filter_append]
    have hsp : ((spawnsOf (get_triggered_reminders now (process_triggered_reminders now s).2)
        (process_triggered_reminders now s).2.nextId).filter
          fun y => decide (y.id = x.id)) = [] := by
      apply filter_false_nil
      intro y hy
      have h1 := (spawnsOf_id_bounds _ _ y hy).1
      have h2 := hlt1 x hx
      simp only [decide_eq_false_iff_not]
      omega
    rw [hsp]
    have hxnot : x.id ∉ (get_triggered_reminders now
        (process_triggered_reminders now s).2).map Reminder.id := by
      intro hmem
      rcases List.mem_map.mp hmem with ⟨y, hy, hyx⟩
      obtain ⟨hyS, hyp, _⟩ := (mem_get_triggered now _ y).mp hy
      have hyeq := List.inj_on_of_nodup_map hno1 hyS hx hyx
      rw [hyeq, hxt] at hyp
      simp at hyp
    have hxm : x ∈ markTriggered ((get_triggered_reminders now
        (process_triggered_reminders now s).2).map Reminder.id)
        (process_triggered_reminders now s).2.reminders :=
      List.mem_map.mpr ⟨x, hx, by rw [if_neg hxnot]⟩
    have hno2 : ((markTriggered ((get_triggered_reminders now
        (process_triggered_reminders now s).2).map Reminder.id)
        (process_triggered_reminders now s).2.reminders).map Reminder.id).Nodup := by
      rw [markTriggered_map_id]
      exact hno1
    have hfin := filter_id_unique _ _ hno2 hxm
    simpa using hfin
  · rw [process_spec now _ ⟨hno1, hlt1⟩]

set_option maxRecDepth 4000 in
theorem process_repeats_spawn_once_witness :
    (storeC2.wf ∧ remC2.trigger_time.date.valid ∧ remC2 ∈ storeC2.reminders
      ∧ remC2.status = ReminderStatus.pending ∧ remC2.repeat_ ≠ RepeatKind.none
      ∧ DateTime.le remC2.trigger_time nowC2 = true
      ∧ (∀ x ∈ storeC2.reminders, x.status = ReminderStatus.pending →
          DateTime.le x.trigger_time nowC2 = true → x.content = remC2.content →
          x.repeat_ = remC2.repeat_ →
          next_trigger x.repeat_ x.trigger_time
            = next_trigger remC2.repeat_ remC2.trigger_time →
          x.id = remC2.id))
    ∧ (remC2 ∈ (process_triggered_reminders nowC2 storeC2).1
      ∧ ((process_triggered_reminders nowC2 storeC2).2.reminders.filter
          fun y => decide (y.id = remC2.id))
          = [{ remC2 with status := ReminderStatus.triggered }]
      ∧ ((process_triggered_reminders nowC2 storeC2).2.reminders.filter
          (newSpawnMatch (storeC2.reminders.map Reminder.id) remC2)).length = 1) :=
  ⟨⟨by decide, by decide, by decide, by decide, by decide, by decide, by decide⟩,
   process_repeats_spawn_once storeC2 nowC2 remC2 (by decide) (by decide) (by decide)
     (by decide) (by decide) (by decide) (by decide)⟩

set_option maxRecDepth 4000 in
theorem process_idempotent_witness :
    storeC3.wf
    ∧ ((∀ a ∈ (process_triggered_reminders nowC3 storeC3).1,
        ∀ b ∈ (process_triggered_reminders nowC3
            (process_triggered_reminders nowC3 storeC3).2).1,
          a.id ≠ b.id)
      ∧ (∀ x ∈ (process_triggered_reminders nowC3 storeC3).2.reminders,
          x.status = ReminderStatus.triggered →
          ((process_triggered_reminders nowC3
              (process_triggered_reminders nowC3 storeC3).2).2.reminders.filter
            fun y => decide (y.id = x.id)) = [x])
      ∧ (process_triggered_reminders nowC3
          (process_triggered_reminders nowC3 storeC3).2).2.reminders
          = markTriggered
              (((process_triggered_reminders nowC3
                  (process_triggered_reminders nowC3 storeC3).2).1).map Reminder.id)
              (process_triggered_reminders nowC3 storeC3).2.reminders
            ++ spawnsOf
                (process_triggered_reminders nowC3
                  (process_triggered_reminders nowC3 storeC3).2).1
                (process_triggered_reminders nowC3 storeC3).2.nextId) :=
  ⟨by decide, process_idempotent storeC3 nowC3 (by decide)⟩

lemma lookup_some_of_mem_keys (fs : List (String × List Entry)) (c : String)
    (hc : c ∈ fs.map Prod.fst) : ∃ v, fs.lookup c = some v := by
  induction fs with
  | nil => simp at hc
  | cons p rest ih =>
      obtain ⟨k, v⟩ := p
      by_cases h : c = k
      · exact ⟨v, by simp [List.lookup, beq_iff_eq.mpr h]⟩
      · simp only [List.map_cons, List.mem_cons] at hc
        rcases hc with h1 | h1
        · exact absurd h1 h
        · obtain ⟨w, hw⟩ := ih h1
          exact ⟨w, by simp [List.lookup, beq_eq_false_iff_ne.mpr h, hw]⟩

lemma lookup_eq_none_of_not_mem_keys (fs : List (String × List Entry)) (c : String)
    (hc : c ∉ fs.map Prod.fst) : fs.lookup c = Option.none := by
  induction fs with
  | nil => rfl
  | cons p rest ih =>
      obtain ⟨k, v⟩ := p
      simp only [List.map_cons, List.mem_cons, not_or] at hc
      obtain ⟨h1, h2⟩ := hc
      simp [List.lookup, beq_eq_false_iff_ne.mpr h1, ih h2]

lemma lookup_some_mem (fs : List (String × List Entry)) (c : String)
    (v : List Entry) (h : fs.lookup c = some v) : (c, v) ∈ fs := by
  induction fs with
  | nil => cases h
  | cons p rest ih =>
      obtain ⟨k, w⟩ := p
      by_cases hk : c = k
      · subst hk
        simp only [List.lookup, beq_self_eq_true] at h
        rw [Option.some.inj h]
        exact List.mem_cons_self _ _
      · simp only [List.lookup, beq_eq_false_iff_ne.mpr hk] at h
        exact List.mem_cons_of_mem _ (ih h)

lemma setFileList_keys (c : String) (l : List Entry)
    (fs : List (String × List Entry)) :
    (setFileList c l fs).map Prod.fst = fs.map Prod.fst := by
  induction fs with
  | nil => rfl
  | cons p rest ih =>
      obtain ⟨k, v⟩ := p
      by_cases h : k = c
      · simp [setFileList, h]
      · simp [setFileList, h, ih]

lemma mem_setFileList_self (c : String) (l : List Entry)
    (fs : List (String × List Entry)) (hc : c ∈ fs.map Prod.fst) :
    (c, l) ∈ setFileList c l fs := by
  induction fs with
  | nil => simp at hc
  | cons p rest ih =>
      obtain ⟨k, v⟩ := p
      by_cases h : k = c
      · subst h
        simp [setFileList]
      · simp only [List.map_cons, List.mem_cons] at hc
        rcases hc with h1 | h1
        · exact absurd h1.symm h
        · simp only [setFileList, if_neg h]
          exact List.mem_cons_of_mem _ (ih h1)

lemma lookup_setFileList_self (c : String) (l : List Entry)
    (fs : List (String × List Entry)) (hc : c ∈ fs.map Prod.fst) :
    (setFileList c l fs).lookup c = some l := by
  induction fs with
  | nil => simp at hc
  | cons p rest ih =>
      obtain ⟨k, v⟩ := p
      by_cases h : k = c
      · subst h
        simp [setFileList, List.lookup]
      · simp only [List.map_cons, List.mem_cons] at hc
        rcases hc with h1 | h1
        · exact absurd h1.symm h
        · simp only [setFileList, if_neg h, List.lookup,
            beq_eq_false_iff_ne.mpr fun he => h he.symm]
          exact ih h1

lemma lookup_setFileList_ne (c c' : String) (l : List Entry)
    (fs : List (String × List Entry)) (h : c' ≠ c) :
    (setFileList c l fs).lookup c' = fs.lookup c' := by
  induction fs with
  | nil => rfl
  | cons p rest ih =>
      obtain ⟨k, v⟩ := p
      by_cases hk : k = c
      · subst hk
        simp [setFileList, List.lookup, beq_eq_false_iff_ne.mpr h]
      · by_cases hk' : c' = k
        · have hb : (c' == k) = true := beq_iff_eq.mpr hk'
          simp [setFileList, if_neg hk, List.lookup, hb]
        · have hb : (c' == k) = false := beq_eq_false_iff_ne.mpr hk'
          simp [setFileList, if_neg hk, List.lookup, hb, ih]

/-- Shared content of C6 and of C8's low-confidence half: a sub-threshold
confidence stores to the inbox file, whatever category the caller named. -/
lemma agent_create_low_conf (category message : String) (confidence : ℚ)
    (chat_id message_id : Option Int) (now : Nat) (s : BrainStore)
    (hwf : s.wf) (h : confidence < CONFIDENCE_THRESHOLD) :
    ∃ (e : Entry) (inboxOld : List Entry),
      (agent_create_entry category message confidence chat_id message_id now s).1
        = CreateResult.ok e "inbox"
      ∧ e.category = "inbox"
      ∧ s.files.lookup "inbox" = some inboxOld
      ∧ (agent_create_entry category message confidence chat_id message_id
          now s).2.files.lookup "inbox" = some (inboxOld ++ [e]) := by
  obtain ⟨hkeys, _, _⟩ := hwf
  have hmem : "inbox" ∈ s.files.map Prod.fst := by
    rw [hkeys]
    decide
  obtain ⟨inboxOld, hlk⟩ := lookup_some_of_mem_keys _ _ hmem
  refine ⟨⟨s.nextId, now, message, "inbox", confidence, now, chat_id, message_id,
    Option.none, []⟩, inboxOld, ?_, rfl, hlk, ?_⟩
  · simp [agent_create_entry, if_pos h, storage_create_entry, hlk]
  · simp only [agent_create_entry, if_pos h, storage_create_entry, hlk]
    exact lookup_setFileList_self _ _ _ hmem

/-- C6: every entry created through the `create_entry` tool with confidence
strictly below the configured threshold (0.7) is stored in the inbox
collection with category `"inbox"`, whatever category was requested —
including invalid category names, since the inbox rewrite happens before the
category is looked up. -/
theorem create_entry_low_confidence_inbox (category message : String)
    (confidence : ℚ) (chat_id message_id : Option Int) (now : Nat)
    (s : BrainStore) (hwf : s.wf) (h : confidence < CONFIDENCE_THRESHOLD) :
    ∃ (e : Entry) (inboxOld : List Entry),
      (agent_create_entry category message confidence chat_id message_id now s).1
        = CreateResult.ok e "inbox"
      ∧ e.category = "inbox"
      ∧ s.files.lookup "inbox" = some inboxOld
      ∧ (agent_create_entry category message confidence chat_id message_id
          now s).2.files.lookup "inbox" = some (inboxOld ++ [e]) :=
  agent_create_low_conf category message confidence chat_id message_id now s hwf h

theorem create_entry_low_confidence_inbox_witness :
    (emptyBrain.wf ∧ confLow < CONFIDENCE_THRESHOLD)
    ∧ ∃ (e : Entry) (inboxOld : List Entry),
      (agent_create_entry "projects" "idea vaga" confLow Option.none Option.none 3
        emptyBrain).1 = CreateResult.ok e "inbox"
      ∧ e.category = "inbox"
      ∧ emptyBrain.files.lookup "inbox" = some inboxOld
      ∧ (agent_create_entry "projects" "idea vaga" confLow Option.none Option.none 3
          emptyBrain).2.files.lookup "inbox" = some (inboxOld ++ [e]) :=
  ⟨⟨by decide, by decide⟩,
   create_entry_low_confidence_inbox "projects" "idea vaga" confLow Option.none
     Option.none 3 emptyBrain (by decide) (by decide)⟩

/-- C8 (amended): a create request naming a category outside the closed set is
routed to inbox only when the confidence is below the threshold; at or above
the threshold the unknown category reaches the store lookup, which fails, and
the tool returns an Unknown-category error result with the store unchanged —
it does not store to inbox. -/
theorem create_entry_unknown_category (category message : String)
    (confidence : ℚ) (chat_id message_id : Option Int) (now : Nat)
    (s : BrainStore) (hwf : s.wf) (hcat : category ∉ STORAGE_CATEGORIES) :
    (confidence < CONFIDENCE_THRESHOLD →
      ∃ (e : Entry) (inboxOld : List Entry),
        (agent_create_entry category message confidence chat_id message_id now s).1
          = CreateResult.ok e "inbox"
        ∧ e.category = "inbox"
        ∧ s.files.lookup "inbox" = some inboxOld
        ∧ (agent_create_entry category message confidence chat_id message_id
            now s).2.files.lookup "inbox" = some (inboxOld ++ [e]))
    ∧ (¬ confidence < CONFIDENCE_THRESHOLD →
        (agent_create_entry category message confidence chat_id message_id now s).1
          = CreateResult.err ("Unknown category: " ++ category)
        ∧ (agent_create_entry category message confidence chat_id message_id
            now s).2 = s) := by
  constructor
  · intro h
    exact agent_create_low_conf category message confidence chat_id message_id now s hwf h
  · intro h
    have hlk : s.files.lookup category = Option.none := by
      apply lookup_eq_none_of_not_mem_keys
      rw [hwf.1]
      exact hcat
    constructor
    · simp [agent_create_entry, if_neg h, storage_create_entry, hlk]
    · simp [agent_create_entry, if_neg h, storage_create_entry, hlk]

/-- C8 counterexample: a high-confidence create request for the unknown
category `"banana"` is rejected with an error and stores nothing — it is not
routed to inbox. -/
theorem create_entry_unknown_category_counterexample :
    (agent_create_entry "banana" "socio de Felipe" confHigh Option.none Option.none 0
      emptyBrain).1 = CreateResult.err "Unknown category: banana"
    ∧ (agent_create_entry "banana" "socio de Felipe" confHigh Option.none Option.none 0
        emptyBrain).2 = emptyBrain := by
  constructor
  · decide
  · decide

theorem create_entry_unknown_category_witness :
    (emptyBrain.wf ∧ "banana" ∉ STORAGE_CATEGORIES)
    ∧ ((confHigh < CONFIDENCE_THRESHOLD →
        ∃ (e : Entry) (inboxOld : List Entry),
          (agent_create_entry "banana" "socio de Felipe" confHigh Option.none
            Option.none 0 emptyBrain).1 = CreateResult.ok e "inbox"
          ∧ e.category = "inbox"
          ∧ emptyBrain.files.lookup "inbox" = some inboxOld
          ∧ (agent_create_entry "banana" "socio de Felipe" confHigh Option.none
              Option.none 0 emptyBrain).2.files.lookup "inbox"
              = some (inboxOld ++ [e]))
      ∧ (¬ confHigh < CONFIDENCE_THRESHOLD →
          (agent_create_entry "banana" "socio de Felipe" confHigh Option.none
            Option.none 0 emptyBrain).1
            = CreateResult.err ("Unknown category: " ++ "banana")
          ∧ (agent_create_entry "banana" "socio de Felipe" confHigh Option.none
              Option.none 0 emptyBrain).2 = emptyBrain)) :=
  ⟨⟨by decide, by decide⟩,
   create_entry_unknown_category "banana" "socio de Felipe" confHigh Option.none
     Option.none 0 emptyBrain (by decide) (by decide)⟩

lemma find?_eq_some_of_unique (l : List Entry) (e : Entry) (he : e ∈ l)
    (h : ∀ x ∈ l, x.id = e.id → x = e) :
    l.find? (fun x => x.id == e.id) = some e := by
  induction l with
  | nil => cases he
  | cons a t ih =>
      by_cases ha : a.id = e.id
      · rw [List.find?_cons_of_pos _ (by simpa using ha)]
        rw [h a (List.mem_cons_self a t) ha]
      · rw [List.find?_cons_of_neg _ (by simpa using ha)]
        have het : e ∈ t := by
          rcases List.mem_cons.mp he with h1 | h1
          · exact absurd (h1 ▸ rfl) ha
          · exact h1
        exact ih het fun x hx => h x (List.mem_cons_of_mem a hx)

lemma find?_eq_none_of_no_id (l : List Entry) (c : Nat)
    (h : ∀ x ∈ l, x.id ≠ c) :
    l.find? (fun x => x.id == c) = Option.none := by
  induction l with
  | nil => rfl
  | cons a t ih =>
      rw [List.find?_cons_of_neg _ (by simpa using h a (List.mem_cons_self a t))]
      exact ih fun x hx => h x (List.mem_cons_of_mem a hx)

lemma mem_allEntries_of_mem (files : List (String × List Entry)) (c : String)
    (l : List Entry) (e : Entry) (hm : (c, l) ∈ files) (he : e ∈ l) :
    e ∈ allEntries files := by
  unfold allEntries
  rw [List.mem_flatten]
  exact ⟨l, List.mem_map.mpr ⟨(c, l), hm, rfl⟩, he⟩

/-- Source `get_entry_by_id` finds an entry stored in one of the category files and
reports that file's category, provided ids are unique across the base. -/
lemma get_entry_by_id_spec (files : List (String × List Entry)) (c : String)
    (l : List Entry) (e : Entry)
    (hno : ((allEntries files).map Entry.id).Nodup)
    (hm : (c, l) ∈ files) (he : e ∈ l) :
    get_entry_by_id e.id files = some (e, c) := by
  induction files with
  | nil => cases hm
  | cons p rest ih =>
      obtain ⟨k, v⟩ := p
      have hall : allEntries ((k, v) :: rest) = v ++ allEntries rest := by
        simp [allEntries]
      rw [hall, List.map_append, List.nodup_append] at hno
      obtain ⟨hv, hrest, hdisj⟩ := hno
      rcases List.mem_cons.mp hm with heq | hm
      · injection heq with h1 h2
        subst h1
        subst h2
        have hfind : l.find? (fun x => x.id == e.id) = some e := by
          apply find?_eq_some_of_unique l e he
          intro x hx hxe
          exact List.inj_on_of_nodup_map hv hx he hxe
        simp [get_entry_by_id, hfind]
      · have hfind : v.find? (fun x => x.id == e.id) = Option.none := by
          apply find?_eq_none_of_no_id
          intro x hx hxe
          have hxm : x.id ∈ v.map Entry.id := List.mem_map_of_mem Entry.id hx
          have hem : e.id ∈ (allEntries rest).map Entry.id :=
            List.mem_map_of_mem Entry.id (mem_allEntries_of_mem rest c l e hm he)
          exact hdisj hxm (hxe ▸ hem)
        simp only [get_entry_by_id, hfind]
        exact ih hrest hm

lemma extractFirst_spec (entry_id : Nat) (l : List Entry) (e : Entry)
    (rest : List Entry) (h : extractFirst entry_id l = some (e, rest)) :
    l.Perm (e :: rest) ∧ e.id = entry_id := by
  induction l generalizing rest with
  | nil => cases h
  | cons a t ih =>
      by_cases ha : a.id = entry_id
      · simp only [extractFirst, if_pos ha] at h
        injection h with h1
        injection h1 with h2 h3
        subst h2
        subst h3
        exact ⟨List.Perm.refl _, ha⟩
      · simp only [extractFirst, if_neg ha] at h
        cases hrec : extractFirst entry_id t with
        | none => rw [hrec] at h; cases h
        | some p =>
            obtain ⟨x, t'⟩ := p
            rw [hrec] at h
            injection h with h1
            injection h1 with h2 h3
            subst h2
            subst h3
            obtain ⟨hperm, hid⟩ := ih t' hrec
            exact ⟨List.Perm.trans (hperm.cons a) (List.Perm.swap _ a t'), hid⟩

/-- Replacing the value stored at key `c` changes the flattened entry pool by
exactly swapping the old value out and the new one in. -/
lemma allEntries_setFileList_perm (fs : List (String × List Entry)) (c : String)
    (v l : List Entry) (hv : fs.lookup c = some v) :
    (allEntries (setFileList c l fs) ++ v).Perm (allEntries fs ++ l) := by
  induction fs with
  | nil => cases hv
  | cons p rest ih =>
      obtain ⟨k, w⟩ := p
      by_cases hk : c = k
      · subst hk
        simp only [List.lookup, beq_self_eq_true] at hv
        have hwv : w = v := Option.some.inj hv
        subst hwv
        have hset : setFileList c l ((c, w) :: rest) = (c, l) :: rest := by
          simp [setFileList]
        rw [hset]
        have h1 : allEntries ((c, l) :: rest) = l ++ allEntries rest := by
          simp [allEntries]
        have h2 : allEntries ((c, w) :: rest) = w ++ allEntries rest := by
          simp [allEntries]
        rw [h1, h2, List.perm_iff_count]
        intro a
        simp only [List.count_append]
        omega
      · have hkne : k ≠ c := fun he => hk he.symm
        simp only [List.lookup, beq_eq_false_iff_ne.mpr hk] at hv
        have hset : setFileList c l ((k, w) :: rest)
            = (k, w) :: setFileList c l rest := by
          simp [setFileList, hkne]
        rw [hset]
        have h1 : allEntries ((k, w) :: setFileList c l rest)
            = w ++ allEntries (setFileList c l rest) := by
          simp [allEntries]
        have h2 : allEntries ((k, w) :: rest) = w ++ allEntries rest := by
          simp [allEntries]
        rw [h1, h2, List.perm_iff_count]
        intro a
        have hcnt := (ih hv).count_eq a
        simp only [List.count_append] at hcnt ⊢
        omega

/-- Any single category file sits inside the flattened pool as a contiguous
segment. -/
lemma allEntries_decomp (fs : List (String × List Entry)) (c : String)
    (v : List Entry) (hm : (c, v) ∈ fs) :
    ∃ u w, allEntries fs = u ++ v ++ w := by
  induction fs with
  | nil => cases hm
  | cons p rest ih =>
      obtain ⟨k, x⟩ := p
      have hall : allEntries ((k, x) :: rest) = x ++ allEntries rest := by
        simp [allEntries]
      rcases List.mem_cons.mp hm with heq | hm
      · injection heq with h1 h2
        subst h1
        subst h2
        exact ⟨[], allEntries rest, by simp [hall]⟩
      · obtain ⟨u, w, hw⟩ := ih hm
        exact ⟨x ++ u, w, by rw [hall, hw]; simp [List.append_assoc]⟩

lemma setFileList_setFileList (c : String) (l1 l2 : List Entry)
    (fs : List (String × List Entry)) :
    setFileList c l2 (setFileList c l1 fs) = setFileList c l2 fs := by
  induction fs with
  | nil => rfl
  | cons p rest ih =>
      obtain ⟨k, v⟩ := p
      by_cases h : k = c
      · simp [setFileList, h]
      · simp [setFileList, h, ih]

lemma file_ids_nodup (files : List (String × List Entry))
    (hno : ((allEntries files).map Entry.id).Nodup)
    (c : String) (v : List Entry) (h : files.lookup c = some v) :
    (v.map Entry.id).Nodup := by
  obtain ⟨u, w, hw⟩ := allEntries_decomp files c v (lookup_some_mem _ _ _ h)
  rw [hw] at hno
  have hsub : v.Sublist (u ++ v ++ w) := by
    rw [List.append_assoc]
    exact (List.sublist_append_left v w).trans (List.sublist_append_right u (v ++ w))
  exact List.Nodup.sublist (hsub.map Entry.id) hno

/-- C7 (amended): moving an entry between two distinct categories relocates it
— the result carries `corrected_from = A`, `category = B`, and
`get_entry_by_id` afterwards reports the entry under `B`.  Moving an entry to
its own category still reports success but is not a no-op: because the source
loads both files before saving either and the destination save overwrites the
source save, the collection afterwards is the original file (old copy still
in place) with the modified copy appended, holding the id twice. -/
theorem move_entry_roundtrip (s : BrainStore) (entry_id : Nat) (A B : String)
    (now : Nat) (hwf : s.wf) (hB : B ∈ STORAGE_CATEGORIES)
    (fromEntries : List Entry) (hlkA : s.files.lookup A = some fromEntries)
    (e : Entry) (rest : List Entry)
    (hex : extractFirst entry_id fromEntries = some (e, rest)) :
    (A ≠ B →
      ∃ e2, (move_entry entry_id A B Option.none now s).1 = some e2
        ∧ e2.category = B ∧ e2.corrected_from = some A ∧ e2.id = entry_id
        ∧ get_entry_by_id entry_id
            (move_entry entry_id A B Option.none now s).2.files = some (e2, B))
    ∧ (A = B →
      ∃ e2, (move_entry entry_id A B Option.none now s).1 = some e2
        ∧ (move_entry entry_id A B Option.none now s).2.files.lookup A
            = some (fromEntries ++ [e2])
        ∧ (fromEntries ++ [e2]).countP (fun x => x.id == entry_id) = 2) := by
  obtain ⟨hkeys, hno, hlt⟩ := hwf
  have hBkeys : B ∈ s.files.map Prod.fst := by rw [hkeys]; exact hB
  have hAkeys : A ∈ s.files.map Prod.fst := by
    have hm := lookup_some_mem s.files A fromEntries hlkA
    exact List.mem_map.mpr ⟨(A, fromEntries), hm, rfl⟩
  obtain ⟨toEntries, hlkB⟩ := lookup_some_of_mem_keys _ _ hBkeys
  obtain ⟨hpermF, hid⟩ := extractFirst_spec entry_id fromEntries e rest hex
  have hmove : move_entry entry_id A B Option.none now s
      = (some (movedCopy e A B now),
         { s with files := (setFileList B (toEntries ++ [movedCopy e A B now])
            (setFileList A rest s.files)) }) := by
    simp [move_entry, hlkA, hlkB, hex, movedCopy]
  constructor
  · intro hAB
    refine ⟨movedCopy e A B now, by rw [hmove], rfl, rfl, hid, ?_⟩
    rw [hmove]
    have hlkB1 : (setFileList A rest s.files).lookup B = some toEntries := by
      rw [lookup_setFileList_ne A B rest s.files (fun h => hAB h.symm)]
      exact hlkB
    have hm2 : (B, toEntries ++ [movedCopy e A B now])
        ∈ setFileList B (toEntries ++ [movedCopy e A B now])
            (setFileList A rest s.files) := by
      apply mem_setFileList_self
      rw [setFileList_keys]
      exact hBkeys
    have hP1 := allEntries_setFileList_perm s.files A fromEntries rest hlkA
    have hP2 := allEntries_setFileList_perm (setFileList A rest s.files) B toEntries
      (toEntries ++ [movedCopy e A B now]) hlkB1
    have hno2 : ((allEntries (setFileList B (toEntries ++ [movedCopy e A B now])
        (setFileList A rest s.files))).map Entry.id).Nodup := by
      rw [List.nodup_iff_count_le_one]
      intro a
      have hc0 := List.nodup_iff_count_le_one.mp hno a
      have hc1 := (hP1.map Entry.id).count_eq a
      have hc2 := (hP2.map Entry.id).count_eq a
      have hc3 := ((hpermF.map Entry.id).count_eq) a
      have hmc : List.map Entry.id [movedCopy e A B now] = [e.id] := by
        simp [movedCopy]
      simp only [List.map_append, List.map_cons, List.map_nil, hmc] at hc1 hc2 hc3
      simp only [List.count_append, List.count_cons, List.count_nil] at hc1 hc2 hc3
      omega
    have hspec := get_entry_by_id_spec _ B _ (movedCopy e A B now)
      hno2 hm2 (List.mem_append_right _ (List.mem_cons_self _ _))
    have hid2 : (movedCopy e A B now).id = entry_id := hid
    rw [← hid2]
    exact hspec
  · intro hAB
    subst hAB
    have hfe : toEntries = fromEntries := Option.some.inj (hlkB.symm.trans hlkA)
    subst hfe
    refine ⟨movedCopy e A A now, by rw [hmove], ?_, ?_⟩
    · rw [hmove]
      show (setFileList A _ (setFileList A rest s.files)).lookup A = _
      rw [setFileList_setFileList, lookup_setFileList_self _ _ _ hAkeys]
    · have hfno : (toEntries.map Entry.id).Nodup := file_ids_nodup s.files hno A _ hlkA
      have hcons : ((e :: rest).map Entry.id).Nodup :=
        ((hpermF.map Entry.id).nodup_iff).mp hfno
      simp only [List.map_cons, List.nodup_cons] at hcons
      obtain ⟨hnotin, _⟩ := hcons
      have hrest0 : rest.countP (fun x => x.id == entry_id) = 0 := by
        rw [List.countP_eq_zero]
        intro x hx
        have hxm : x.id ∈ rest.map Entry.id := List.mem_map_of_mem Entry.id hx
        simp only [beq_iff_eq]
        intro hxe
        apply hnotin
        rw [hid, ← hxe]
        exact hxm
      rw [List.countP_append, hpermF.countP_eq]
      simp [List.countP_cons, hrest0, hid, movedCopy]

/-- C7 counterexample: moving an entry to the category it is already in is not
a no-op and the entry is not stored exactly once — the move reports success
and the inbox file afterwards holds the entry twice: the unchanged original
plus an appended copy with `corrected_from` set. -/
theorem move_entry_same_category_counterexample :
    (move_entry 0 "inbox" "inbox" Option.none 7 brainC7).1
      = some { entC7 with corrected_from := some "inbox", processed_at := 7 }
    ∧ (move_entry 0 "inbox" "inbox" Option.none 7 brainC7).2.files.lookup "inbox"
      = some [entC7, { entC7 with corrected_from := some "inbox", processed_at := 7 }] := by
  constructor
  · decide
  · decide

theorem move_entry_roundtrip_witness :
    (brainC7.wf ∧ "ideas" ∈ STORAGE_CATEGORIES
      ∧ brainC7.files.lookup "inbox" = some [entC7]
      ∧ extractFirst 0 [entC7] = some (entC7, []))
    ∧ (("inbox" ≠ "ideas" →
        ∃ e2, (move_entry 0 "inbox" "ideas" Option.none 7 brainC7).1 = some e2
          ∧ e2.category = "ideas" ∧ e2.corrected_from = some "inbox" ∧ e2.id = 0
          ∧ get_entry_by_id 0
              (move_entry 0 "inbox" "ideas" Option.none 7 brainC7).2.files
              = some (e2, "ideas"))
      ∧ ("inbox" = "ideas" →
        ∃ e2, (move_entry 0 "inbox" "ideas" Option.none 7 brainC7).1 = some e2
          ∧ (move_entry 0 "inbox" "ideas" Option.none 7 brainC7).2.files.lookup "inbox"
              = some ([entC7] ++ [e2])
          ∧ ([entC7] ++ [e2]).countP (fun x => x.id == 0) = 2)) :=
  ⟨⟨by decide, by decide, by decide, by decide⟩,
   move_entry_roundtrip brainC7 0 "inbox" "ideas" 7 (by decide) (by decide) [entC7]
     (by decide) entC7 [] (by decide)⟩

/-- C9 counterexample: patching a day document whose `linked_entries` list
already holds an id inserts the new id as the first item (directly beneath
the key line), not appended at the end — `read_journal` afterwards parses
`[bbb, aaa]`, where appending would give `[aaa, bbb]`. -/
theorem add_linked_entry_prepends :
    read_journal_linked_entries
        (((add_linked_entry_to_journal ⟨2025, 3, 10⟩ "bbb" jsC9).2.lookup
          ⟨2025, 3, 10⟩).getD [])
      = [("bbb").data, ("aaa").data]
    ∧ read_journal_linked_entries ((jsC9.lookup ⟨2025, 3, 10⟩).getD [])
      = [("aaa").data] := by
  constructor
  · decide
  · decide

/-- C9 (amended): patching a day's header inserts the entry id into the
front matter (at the head of an existing `linked_entries` list, or as a fresh
section) and leaves the body after the closing fence byte-for-byte unchanged —
the new file is the fence, a new front matter, the fence, then exactly the old
body; for a date with no day document the call fails and the store is
untouched (no document is created). -/
theorem add_linked_entry_frame (js : List (Date × List Char)) (d : Date)
    (entry_id : String) :
    (js.lookup d = Option.none →
      add_linked_entry_to_journal d entry_id js = (false, js))
    ∧ (∀ content endFM, js.lookup d = some content →
        fmSep.isPrefixOf content = true →
        findSub fmSep content 4 = some endFM →
        ∃ fm2, add_linked_entry_to_journal d entry_id js
          = (true, setJournalFile d
              (fmSep ++ fm2 ++ fmSep ++ content.drop (endFM + 4)) js)) := by
  constructor
  · intro h
    simp [add_linked_entry_to_journal, h]
  · intro content endFM hlk hpre hfind
    refine ⟨(if containsSub ("linked_entries:").data
        ((content.drop 4).take (endFM - 4)) then
        List.intercalate ['\n']
          (((splitNl ((content.drop 4).take (endFM - 4))).map fun ln =>
              if containsSub ("linked_entries:").data ln then
                [ln, ("  - " ++ entry_id).data] else [ln]).flatten)
      else ((content.drop 4).take (endFM - 4))
        ++ ("\nlinked_entries:\n  - " ++ entry_id ++ "\n").data), ?_⟩
    simp [add_linked_entry_to_journal, hlk, hpre, hfind]

theorem add_linked_entry_frame_witness :
    (jsC9.lookup ⟨2025, 3, 10⟩ = some contentC9
      ∧ fmSep.isPrefixOf contentC9 = true
      ∧ findSub fmSep contentC9 4 = some 45)
    ∧ ∃ fm2, add_linked_entry_to_journal ⟨2025, 3, 10⟩ "bbb" jsC9
        = (true, setJournalFile ⟨2025, 3, 10⟩
            (fmSep ++ fm2 ++ fmSep ++ contentC9.drop (45 + 4)) jsC9) :=
  ⟨⟨by decide, by decide, by decide⟩,
   (add_linked_entry_frame jsC9 ⟨2025, 3, 10⟩ "bbb").2 contentC9 45
     (by decide) (by decide) (by decide)⟩

lemma add_linked_fail_frame (d : Date) (eid : String)
    (js : List (Date × List Char))
    (h : (add_linked_entry_to_journal d eid js).1 = false) :
    (add_linked_entry_to_journal d eid js).2 = js := by
  unfold add_linked_entry_to_journal at h ⊢
  cases hlk : js.lookup d with
  | none => simp
  | some content =>
      simp only [hlk] at h ⊢
      cases hpre : fmSep.isPrefixOf content with
      | false => simp [hpre]
      | true =>
          simp only [hpre, if_true] at h ⊢
          cases hfind : findSub fmSep content 4 with
          | none => simp [hfind]
          | some i => simp [hfind] at h

lemma add_journal_ref_fail_frame (eid : Nat) (d : Date) (lt : String)
    (s : BrainStore)
    (h : (add_journal_ref_to_entry eid d lt s).1 = false) :
    (add_journal_ref_to_entry eid d lt s).2 = s := by
  unfold add_journal_ref_to_entry at h ⊢
  cases hg : get_entry_by_id eid s.files with
  | none => simp
  | some p => simp [hg] at h

/-- C5: the journal side is attempted first — when it fails, the entry store
is not touched (and the journal store is also unchanged) and the result is
the journal-side error; when the journal side succeeds and the entry side
fails, the journal half stays applied, the entry store is unchanged, and the
result is the distinct knowledge-entry error — distinguishable both from the
journal-side failure and from blanket success; overall success is reported
exactly when both sides succeed. -/
theorem link_entries_two_phase (journal_date : Date) (entry_id : Nat)
    (link_type : String) (brain : BrainStore) (js : List (Date × List Char)) :
    ((add_linked_entry_to_journal journal_date (toString entry_id) js).1 = false →
      link_entries journal_date entry_id link_type brain js
        = (⟨false, some "Journal entry not found or failed to update"⟩, brain, js))
    ∧ ((add_linked_entry_to_journal journal_date (toString entry_id) js).1 = true →
        (add_journal_ref_to_entry entry_id journal_date link_type brain).1 = false →
        link_entries journal_date entry_id link_type brain js
          = (⟨false, some "Knowledge entry not found or failed to update"⟩, brain,
             (add_linked_entry_to_journal journal_date (toString entry_id) js).2))
    ∧ ((add_linked_entry_to_journal journal_date (toString entry_id) js).1 = true →
        (add_journal_ref_to_entry entry_id journal_date link_type brain).1 = true →
        link_entries journal_date entry_id link_type brain js
          = (⟨true, Option.none⟩,
             (add_journal_ref_to_entry entry_id journal_date link_type brain).2,
             (add_linked_entry_to_journal journal_date (toString entry_id) js).2))
    ∧ ((link_entries journal_date entry_id link_type brain js).1.success = true ↔
        (add_linked_entry_to_journal journal_date (toString entry_id) js).1 = true
        ∧ (add_journal_ref_to_entry entry_id journal_date link_type brain).1 = true) := by
  refine ⟨?_, ?_, ?_, ?_⟩
  · intro h
    simp [link_entries, h, add_linked_fail_frame _ _ _ h]
  · intro hj he
    simp [link_entries, hj, he, add_journal_ref_fail_frame _ _ _ _ he]
  · intro hj he
    simp [link_entries, hj, he]
  · constructor
    · intro h
      cases hj : (add_linked_entry_to_journal journal_date (toString entry_id) js).1 with
      | false => simp [link_entries, hj] at h
      | true =>
          cases he : (add_journal_ref_to_entry entry_id journal_date
              link_type brain).1 with
          | false => simp [link_entries, hj, he] at h
          | true => exact ⟨rfl, rfl⟩
    · rintro ⟨hj, he⟩
      simp [link_entries, hj, he]

/-- A journal store and knowledge base on which both halves of a link
succeed: the day document of `jsC9` and the single inbox entry of
`brainC7`. -/
theorem link_entries_two_phase_witness :
    ((add_linked_entry_to_journal ⟨2025, 3, 10⟩ (toString 0) jsC9).1 = true
      ∧ (add_journal_ref_to_entry 0 ⟨2025, 3, 10⟩ "extracted_from" brainC7).1 = true)
    ∧ link_entries ⟨2025, 3, 10⟩ 0 "extracted_from" brainC7 jsC9
        = (⟨true, Option.none⟩,
           (add_journal_ref_to_entry 0 ⟨2025, 3, 10⟩ "extracted_from" brainC7).2,
           (add_linked_entry_to_journal ⟨2025, 3, 10⟩ (toString 0) jsC9).2) :=
  ⟨⟨by decide, by decide⟩,
   (link_entries_two_phase ⟨2025, 3, 10⟩ 0 "extracted_from" brainC7 jsC9).2.2.1
     (by decide) (by decide)⟩

/-- C4 (amended): `execute_tool` returns a result envelope — and never an
exception — for every handler behaviour, every tool name and every input
dictionary that binds against the dispatched handler's parameters; a name
outside the registry yields the Unknown-tool failure envelope.  (The
counterexample theorem shows the unamended claim fails: an input missing a
required field raises TypeError/KeyError out of `execute_tool`.) -/
theorem execute_tool_returns_envelope (H : String → ToolInput → Envelope)
    (tool_name : String) (tool_input : ToolInput) :
    (bindsFor tool_name tool_input = true →
      ∃ env, execute_tool H tool_name tool_input = Except.ok env)
    ∧ (tool_name ∉ TOOL_NAMES →
      execute_tool H tool_name tool_input
        = Except.ok ⟨false, some ("Unknown tool: " ++ tool_name)⟩) := by
  constructor
  · intro h
    by_cases hn1 : tool_name = "list_entries"
    · subst hn1
      refine ⟨H "list_entries" tool_input, ?_⟩
      show starCall H "list_entries" ["category"] ["limit"] tool_input = Except.ok (H "list_entries" tool_input)
      unfold starCall
      rw [if_pos (show bindsOk ["category"] ["limit"] tool_input = true from h)]
    by_cases hn2 : tool_name = "search_entries"
    · subst hn2
      refine ⟨H "search_entries" tool_input, ?_⟩
      show starCall H "search_entries" ["query"] ["categories", "limit"] tool_input = Except.ok (H "search_entries" tool_input)
      unfold starCall
      rw [if_pos (show bindsOk ["query"] ["categories", "limit"] tool_input = true from h)]
    by_cases hn3 : tool_name = "get_entry"
    · subst hn3
      refine ⟨H "get_entry" tool_input, ?_⟩
      show starCall H "get_entry" ["entry_id"] [] tool_input = Except.ok (H "get_entry" tool_input)
      unfold starCall
      rw [if_pos (show bindsOk ["entry_id"] [] tool_input = true from h)]
    by_cases hn4 : tool_name = "create_entry"
    · subst hn4
      refine ⟨H "create_entry" tool_input, ?_⟩
      show starCall H "create_entry" ["category", "message", "confidence"] ["chat_id", "message_id"] tool_input = Except.ok (H "create_entry" tool_input)
      unfold starCall
      rw [if_pos (show bindsOk ["category", "message", "confidence"] ["chat_id", "message_id"] tool_input = true from h)]
    by_cases hn5 : tool_name = "move_entry"
    · subst hn5
      refine ⟨H "move_entry" tool_input, ?_⟩
      show starCall H "move_entry" ["entry_id", "from_category", "to_category"] [] tool_input = Except.ok (H "move_entry" tool_input)
      unfold starCall
      rw [if_pos (show bindsOk ["entry_id", "from_category", "to_category"] [] tool_input = true from h)]
    by_cases hn6 : tool_name = "delete_entry"
    · subst hn6
      refine ⟨H "delete_entry" tool_input, ?_⟩
      show starCall H "delete_entry" ["entry_id", "category"] [] tool_input = Except.ok (H "delete_entry" tool_input)
      unfold starCall
      rw [if_pos (show bindsOk ["entry_id", "category"] [] tool_input = true from h)]
    by_cases hn7 : tool_name = "write_journal"
    · subst hn7
      refine ⟨H "write_journal" tool_input, ?_⟩
      show starCall H "write_journal" ["content"] ["timestamp", "linked_entries"] tool_input = Except.ok (H "write_journal" tool_input)
      unfold starCall
      rw [if_pos (show bindsOk ["content"] ["timestamp", "linked_entries"] tool_input = true from h)]
    by_cases hn8 : tool_name = "read_journal"
    · subst hn8
      exact ⟨H "read_journal" tool_input, rfl⟩
    by_cases hn9 : tool_name = "search_journal"
    · subst hn9
      refine ⟨H "search_journal" tool_input, ?_⟩
      show starCall H "search_journal" ["query"] ["date_from", "date_to"] tool_input = Except.ok (H "search_journal" tool_input)
      unfold starCall
      rw [if_pos (show bindsOk ["query"] ["date_from", "date_to"] tool_input = true from h)]
    by_cases hn10 : tool_name = "create_reminder"
    · subst hn10
      refine ⟨H "create_reminder" tool_input, ?_⟩
      show starCall H "create_reminder" ["content"] ["trigger_time", "repeat", "reference_entry_id", "journal_date"] tool_input = Except.ok (H "create_reminder" tool_input)
      unfold starCall
      rw [if_pos (show bindsOk ["content"] ["trigger_time", "repeat", "reference_entry_id", "journal_date"] tool_input = true from h)]
    by_cases hn11 : tool_name = "list_reminders"
    · subst hn11
      exact ⟨H "list_reminders" tool_input, rfl⟩
    by_cases hn12 : tool_name = "complete_reminder"
    · subst hn12
      refine ⟨H "complete_reminder" tool_input, ?_⟩
      show (if (inputKeys tool_input).contains "reminder_id" = true then Except.ok (H "complete_reminder" tool_input) else Except.error (PyExn.keyError "reminder_id")) = Except.ok (H "complete_reminder" tool_input)
      rw [if_pos (show (inputKeys tool_input).contains "reminder_id" = true from h)]
    by_cases hn13 : tool_name = "link_entries"
    · subst hn13
      refine ⟨H "link_entries" tool_input, ?_⟩
      show starCall H "link_entries" ["journal_date", "entry_id", "link_type"] [] tool_input = Except.ok (H "link_entries" tool_input)
      unfold starCall
      rw [if_pos (show bindsOk ["journal_date", "entry_id", "link_type"] [] tool_input = true from h)]
    by_cases hn14 : tool_name = "get_audio_file"
    · subst hn14
      refine ⟨H "get_audio_file" tool_input, ?_⟩
      show starCall H "get_audio_file" ["date_str", "index"] [] tool_input = Except.ok (H "get_audio_file" tool_input)
      unfold starCall
      rw [if_pos (show bindsOk ["date_str", "index"] [] tool_input = true from h)]
    by_cases hn15 : tool_name = "list_files"
    · subst hn15
      refine ⟨H "list_files" tool_input, ?_⟩
      show starCall H "list_files" [] ["path", "max_depth", "include_hidden", "max_entries"] tool_input = Except.ok (H "list_files" tool_input)
      unfold starCall
      rw [if_pos (show bindsOk [] ["path", "max_depth", "include_hidden", "max_entries"] tool_input = true from h)]
    by_cases hn16 : tool_name = "read_file"
    · subst hn16
      refine ⟨H "read_file" tool_input, ?_⟩
      show starCall H "read_file" ["path"] ["max_bytes"] tool_input = Except.ok (H "read_file" tool_input)
      unfold starCall
      rw [if_pos (show bindsOk ["path"] ["max_bytes"] tool_input = true from h)]
    by_cases hn17 : tool_name = "write_file"
    · subst hn17
      refine ⟨H "write_file" tool_input, ?_⟩
      show starCall H "write_file" ["path", "content"] ["create_dirs"] tool_input = Except.ok (H "write_file" tool_input)
      unfold starCall
      rw [if_pos (show bindsOk ["path", "content"] ["create_dirs"] tool_input = true from h)]
    by_cases hn18 : tool_name = "search_repo"
    · subst hn18
      refine ⟨H "search_repo" tool_input, ?_⟩
      show starCall H "search_repo" ["query"] ["path", "max_results"] tool_input = Except.ok (H "search_repo" tool_input)
      unfold starCall
      rw [if_pos (show bindsOk ["query"] ["path", "max_results"] tool_input = true from h)]
    by_cases hn19 : tool_name = "git_status"
    · subst hn19
      exact ⟨H "git_status" tool_input, rfl⟩
    by_cases hn20 : tool_name = "git_diff"
    · subst hn20
      refine ⟨H "git_diff" tool_input, ?_⟩
      show starCall H "git_diff" [] ["staged", "path"] tool_input = Except.ok (H "git_diff" tool_input)
      unfold starCall
      rw [if_pos (show bindsOk [] ["staged", "path"] tool_input = true from h)]
    by_cases hn21 : tool_name = "publish_changes"
    · subst hn21
      refine ⟨H "publish_changes" tool_input, ?_⟩
      show starCall H "publish_changes" [] ["message"] tool_input = Except.ok (H "publish_changes" tool_input)
      unfold starCall
      rw [if_pos (show bindsOk [] ["message"] tool_input = true from h)]
    by_cases hn22 : tool_name = "restart_service"
    · subst hn22
      refine ⟨H "restart_service" tool_input, ?_⟩
      show starCall H "restart_service" [] ["service_name"] tool_input = Except.ok (H "restart_service" tool_input)
      unfold starCall
      rw [if_pos (show bindsOk [] ["service_name"] tool_input = true from h)]
    by_cases hn23 : tool_name = "tail_log"
    · subst hn23
      refine ⟨H "tail_log" tool_input, ?_⟩
      show starCall H "tail_log" [] ["lines"] tool_input = Except.ok (H "tail_log" tool_input)
      unfold starCall
      rw [if_pos (show bindsOk [] ["lines"] tool_input = true from h)]
    by_cases hn24 : tool_name = "list_skills"
    · subst hn24
      exact ⟨H "list_skills" tool_input, rfl⟩
    by_cases hn25 : tool_name = "install_skill"
    · subst hn25
      refine ⟨H "install_skill" tool_input, ?_⟩
      show starCall H "install_skill" ["name", "repo_url"] [] tool_input = Except.ok (H "install_skill" tool_input)
      unfold starCall
      rw [if_pos (show bindsOk ["name", "repo_url"] [] tool_input = true from h)]
    by_cases hn26 : tool_name = "enable_skill"
    · subst hn26
      refine ⟨H "enable_skill" tool_input, ?_⟩
      show starCall H "enable_skill" ["name"] [] tool_input = Except.ok (H "enable_skill" tool_input)
      unfold starCall
      rw [if_pos (show bindsOk ["name"] [] tool_input = true from h)]
    by_cases hn27 : tool_name = "disable_skill"
    · subst hn27
      refine ⟨H "disable_skill" tool_input, ?_⟩
      show starCall H "disable_skill" ["name"] [] tool_input = Except.ok (H "disable_skill" tool_input)
      unfold starCall
      rw [if_pos (show bindsOk ["name"] [] tool_input = true from h)]
    by_cases hn28 : tool_name = "remove_skill"
    · subst hn28
      refine ⟨H "remove_skill" tool_input, ?_⟩
      show starCall H "remove_skill" ["name"] [] tool_input = Except.ok (H "remove_skill" tool_input)
      unfold starCall
      rw [if_pos (show bindsOk ["name"] [] tool_input = true from h)]
    exact ⟨⟨false, some ("Unknown tool: " ++ tool_name)⟩, by simp [execute_tool, hn1, hn2, hn3, hn4, hn5, hn6, hn7, hn8, hn9, hn10, hn11, hn12, hn13, hn14, hn15, hn16, hn17, hn18, hn19, hn20, hn21, hn22, hn23, hn24, hn25, hn26, hn27, hn28]⟩
  · intro h
    have hm1 : ¬ tool_name = "list_entries" := fun he => h (by rw [he]; decide)
    have hm2 : ¬ tool_name = "search_entries" := fun he => h (by rw [he]; decide)
    have hm3 : ¬ tool_name = "get_entry" := fun he => h (by rw [he]; decide)
    have hm4 : ¬ tool_name = "create_entry" := fun he => h (by rw [he]; decide)
    have hm5 : ¬ tool_name = "move_entry" := fun he => h (by rw [he]; decide)
    have hm6 : ¬ tool_name = "delete_entry" := fun he => h (by rw [he]; decide)
    have hm7 : ¬ tool_name = "write_journal" := fun he => h (by rw [he]; decide)
    have hm8 : ¬ tool_name = "read_journal" := fun he => h (by rw [he]; decide)
    have hm9 : ¬ tool_name = "search_journal" := fun he => h (by rw [he]; decide)
    have hm10 : ¬ tool_name = "create_reminder" := fun he => h (by rw [he]; decide)
    have hm11 : ¬ tool_name = "list_reminders" := fun he => h (by rw [he]; decide)
    have hm12 : ¬ tool_name = "complete_reminder" := fun he => h (by rw [he]; decide)
    have hm13 : ¬ tool_name = "link_entries" := fun he => h (by rw [he]; decide)
    have hm14 : ¬ tool_name = "get_audio_file" := fun he => h (by rw [he]; decide)
    have hm15 : ¬ tool_name = "list_files" := fun he => h (by rw [he]; decide)
    have hm16 : ¬ tool_name = "read_file" := fun he => h (by rw [he]; decide)
    have hm17 : ¬ tool_name = "write_file" := fun he => h (by rw [he]; decide)
    have hm18 : ¬ tool_name = "search_repo" := fun he => h (by rw [he]; decide)
    have hm19 : ¬ tool_name = "git_status" := fun he => h (by rw [he]; decide)
    have hm20 : ¬ tool_name = "git_diff" := fun he => h (by rw [he]; decide)
    have hm21 : ¬ tool_name = "publish_changes" := fun he => h (by rw [he]; decide)
    have hm22 : ¬ tool_name = "restart_service" := fun he => h (by rw [he]; decide)
    have hm23 : ¬ tool_name = "tail_log" := fun he => h (by rw [he]; decide)
    have hm24 : ¬ tool_name = "list_skills" := fun he => h (by rw [he]; decide)
    have hm25 : ¬ tool_name = "install_skill" := fun he => h (by rw [he]; decide)
    have hm26 : ¬ tool_name = "enable_skill" := fun he => h (by rw [he]; decide)
    have hm27 : ¬ tool_name = "disable_skill" := fun he => h (by rw [he]; decide)
    have hm28 : ¬ tool_name = "remove_skill" := fun he => h (by rw [he]; decide)
    simp [execute_tool, hm1, hm2, hm3, hm4, hm5, hm6, hm7, hm8, hm9, hm10, hm11, hm12, hm13, hm14, hm15, hm16, hm17, hm18, hm19, hm20, hm21, hm22, hm23, hm24, hm25, hm26, hm27, hm28]

/-- C4 counterexample: `execute_tool` raises rather than returning an
envelope on malformed input — `complete_reminder` with a missing
`reminder_id` raises KeyError (line 1362 subscripts the dict), and
`list_entries` with the required `category` field missing, or with an
unexpected field, raises TypeError at `list_entries(**tool_input)` before the
handler's own try/except is reached. -/
theorem execute_tool_raises_on_missing_field :
    execute_tool hOk "complete_reminder" [] = Except.error (PyExn.keyError "reminder_id")
    ∧ execute_tool hOk "list_entries" [] = Except.error (PyExn.typeError "list_entries")
    ∧ execute_tool hOk "list_entries"
        [("category", PyVal.str "people"), ("unexpected", PyVal.int 1)]
        = Except.error (PyExn.typeError "list_entries") := by
  refine ⟨rfl, rfl, rfl⟩

theorem execute_tool_returns_envelope_witness :
    (bindsFor "list_entries" [("category", PyVal.str "people")] = true
      ∧ ∃ env, execute_tool hOk "list_entries" [("category", PyVal.str "people")]
          = Except.ok env)
    ∧ ("frobnicate" ∉ TOOL_NAMES
      ∧ execute_tool hOk "frobnicate" []
          = Except.ok ⟨false, some ("Unknown tool: " ++ "frobnicate")⟩) :=
  ⟨⟨by decide,
    (execute_tool_returns_envelope hOk "list_entries"
      [("category", PyVal.str "people")]).1 (by decide)⟩,
   ⟨by decide,
    (execute_tool_returns_envelope hOk "frobnicate" []).2 (by decide)⟩⟩

end SecondBrain









